import Mathlib

/-!
Shallow embedding of the interval-accounting engine of gnome-time-tracker:
`analyze` from rawlog.py and `extract_idle_durations` from showidles.py.

Numbers are modelled as rationals (exact arithmetic in place of Python
floats).  Python dicts are modelled as association lists with insertion
order preserved (`dinsert` replaces in place, appends fresh keys), which
is exactly the ordering contract of Python 3 dicts that the source relies
on (`focused_cmds[0]`).  A falsy string field (`None` or `""`) is
modelled as `""`; a record timestamp is `absent` (key missing), `num q`
(a value `float` accepts) or `bad` (a value `float` raises on).
-/

/-- Association-list lookup, first match (Python `dict.get`). -/
def dget {β : Type} : List (String × β) → String → Option β
  | [], _ => none
  | (k', v) :: t, k => if k' = k then some v else dget t k

/-- Association-list insert with Python dict semantics: replace in place
if the key exists, otherwise append at the end. -/
def dinsert {β : Type} : List (String × β) → String → β → List (String × β)
  | [], k, v => [(k, v)]
  | (k', v') :: t, k, v =>
    if k' = k then (k', v) :: t else (k', v') :: dinsert t k v

/-- Update the value at a key in place; no effect if the key is absent. -/
def dmodify {β : Type} : List (String × β) → String → (β → β) → List (String × β)
  | [], _, _ => []
  | (k', v') :: t, k, f =>
    if k' = k then (k', f v') :: t else (k', v') :: dmodify t k f

/-- `durations_by_cmd.setdefault(k, []).append(v)`. -/
def dappendDur (m : List (String × List ℚ)) (k : String) (v : ℚ) :
    List (String × List ℚ) :=
  match dget m k with
  | some l => dinsert m k (l ++ [v])
  | none => dinsert m k [v]

/-- One entry of a snapshot's `windows` list.  A missing or empty (falsy)
`hash`/`title`/`cmd` is modelled as `""`. -/
structure WindowInfo where
  hash : String
  focused : Bool
  title : String
  cmd : String
  deriving DecidableEq, Repr

/-- The `ts` field of a log record: absent/null, a value `float()`
parses, or a value `float()` raises on. -/
inductive TsField where
  | absent
  | num (q : ℚ)
  | bad
  deriving DecidableEq, Repr

/-- The payload of a log record, with the source's key priority
(`restart` before `stopped` before `windows`) already applied.  `other`
is a record carrying none of the three keys.  The `idle`/`locked` fields
of a snapshot are optional: `none` models an absent key. -/
inductive RecBody where
  | restart
  | stopped
  | snapshot (idleF lockedF : Option Bool) (windows : List WindowInfo)
  | other
  deriving DecidableEq, Repr

/-- A decoded log record. -/
structure Rec where
  ts : TsField
  body : RecBody
  deriving DecidableEq, Repr

/-- Per-entity statistics (rawlog.py `stats[h]`); unknown title/cmd is
`""`. -/
structure Entry where
  title : String
  cmd : String
  activations : ℕ
  focus_seconds : ℚ
  idle_seconds : ℚ
  deriving DecidableEq, Repr

/-- The loop state of `analyze` (rawlog.py). -/
structure AState where
  hash_to_title : List (String × String)
  hash_to_cmd : List (String × String)
  stats : List (String × Entry)
  prev_ts : Option ℚ
  prev_windows : List (String × Bool)
  extension_running : Bool
  idle : Bool
  locked : Bool
  total_idle : ℚ
  total_locked : ℚ
  total_stopped : ℚ
  idle_start_ts : Option ℚ
  idle_cmd : Option String
  idle_focused_hashes : List String
  idle_overlap : ℚ
  idle_duration : ℚ
  deriving DecidableEq, Repr

def initAState : AState :=
  { hash_to_title := [], hash_to_cmd := [], stats := [], prev_ts := none,
    prev_windows := [], extension_running := false, idle := false,
    locked := false, total_idle := 0, total_locked := 0, total_stopped := 0,
    idle_start_ts := none, idle_cmd := none, idle_focused_hashes := [],
    idle_overlap := 0, idle_duration := 0 }

/-- `[h for h, f in m.items() if f]`. -/
def focusedKeys (m : List (String × Bool)) : List String :=
  (m.filter (·.2)).map (·.1)

/-- rawlog.py `ensure_entry`: return-or-create the stats entry for `h`,
pre-populated with any already-known metadata. -/
def ensure_entry (ht hc : List (String × String))
    (stats : List (String × Entry)) (h : String) : List (String × Entry) :=
  match dget stats h with
  | some _ => stats
  | none =>
    dinsert stats h
      { title := (dget ht h).getD "", cmd := (dget hc h).getD "",
        activations := 0, focus_seconds := 0, idle_seconds := 0 }

/-- rawlog.py `_attribute_focus`. -/
def attribute_focus (ht hc : List (String × String))
    (stats : List (String × Entry)) (hashes : List String) (interval : ℚ) :
    List (String × Entry) :=
  hashes.foldl
    (fun st h =>
      dmodify (ensure_entry ht hc st h) h
        (fun e => { e with focus_seconds := e.focus_seconds + interval }))
    stats

/-- Window-overlap of the segment `[p, q]` with `[t1, t2]`
(rawlog.py lines 152-158). -/
def ival (t1 t2 p q : ℚ) : ℚ :=
  if q < t1 ∨ t2 < p then 0 else max 0 (min q t2 - max p t1)

/-- Step part 1 (rawlog.py lines 147-182): attribute the interval from
`prev_ts` to `q` to the state previously in effect. -/
def attributeInterval (t1 t2 : ℚ) (s : AState) (q : ℚ) : AState :=
  match s.prev_ts with
  | none => s
  | some p =>
    let interval := ival t1 t2 p q
    if s.extension_running = false then
      if 0 < interval then
        { s with total_stopped := s.total_stopped + interval }
      else s
    else if s.locked then
      if 0 < interval then
        { s with total_locked := s.total_locked + interval }
      else s
    else if s.idle then
      let s :=
        if s.idle_start_ts = none then
          { s with idle_start_ts := some p, idle_cmd := none,
                   idle_focused_hashes := focusedKeys s.prev_windows,
                   idle_overlap := 0, idle_duration := 0 }
        else s
      let s := { s with idle_duration := s.idle_duration + (q - p) }
      if 0 < interval then
        { s with idle_overlap := s.idle_overlap + interval }
      else s
    else
      if 0 < interval then
        { s with stats := (attribute_focus s.hash_to_title s.hash_to_cmd
            s.stats (focusedKeys s.prev_windows) interval) }
      else s

/-- Fold step over one `windows` entry (rawlog.py lines 211-231):
build the focus map, learn title/cmd first-wins, back-fill stats. -/
def processWindow
    (acc : List (String × Bool) × List (String × String) ×
      List (String × String) × List (String × Entry))
    (w : WindowInfo) :
    List (String × Bool) × List (String × String) ×
      List (String × String) × List (String × Entry) :=
  let (st, ht, hc, stats) := acc
  if w.hash = "" then (st, ht, hc, stats)
  else
    let st := dinsert st w.hash w.focused
    let (ht, stats) :=
      if w.title ≠ "" ∧ dget ht w.hash = none then
        (dinsert ht w.hash w.title,
         match dget stats w.hash with
         | some e => dinsert stats w.hash { e with title := w.title }
         | none => stats)
      else (ht, stats)
    let (hc, stats) :=
      if w.cmd ≠ "" ∧ dget hc w.hash = none then
        (dinsert hc w.hash w.cmd,
         match dget stats w.hash with
         | some e => dinsert stats w.hash { e with cmd := w.cmd }
         | none => stats)
      else (hc, stats)
    (st, ht, hc, stats)

/-- Step part 2 (rawlog.py lines 188-241): update the collector state
from this record; on a snapshot also count activations. -/
def applyBody (t1 t2 q : ℚ) (s : AState) (b : RecBody) : AState :=
  match b with
  | .restart =>
    { s with extension_running := true, idle := false, locked := false,
             prev_windows := [] }
  | .stopped =>
    { s with extension_running := false, prev_windows := [] }
  | .snapshot idleF lockedF ws =>
    let idle := idleF.getD false
    let locked := lockedF.getD false
    let (st, ht, hc, stats) :=
      ws.foldl processWindow ([], s.hash_to_title, s.hash_to_cmd, s.stats)
    let stats :=
      if t1 ≤ q ∧ q ≤ t2 then
        (st.filter (fun hf => hf.2 && !((dget s.prev_windows hf.1).getD false))).foldl
          (fun acc hf =>
            dmodify (ensure_entry ht hc acc hf.1) hf.1
              (fun e => { e with activations := e.activations + 1 }))
          stats
      else stats
    { s with extension_running := true, idle := idle, locked := locked,
             hash_to_title := ht, hash_to_cmd := hc, stats := stats,
             prev_windows := st }
  | .other => s

/-- `focused_cmds[0] if focused_cmds else None` over a previous focus
map (rawlog.py lines 247-252). -/
def firstFocusedCmd (hc : List (String × String))
    (prevW : List (String × Bool)) : Option String :=
  ((prevW.filter (·.2)).filterMap (fun hf => dget hc hf.1)).head?

/-- Idle-episode eager open (rawlog.py lines 245-257), run after the
state update; `prevIdle`/`prevW` were captured before it. -/
def detectOpen (s : AState) (prevIdle : Bool)
    (prevW : List (String × Bool)) (q : ℚ) : AState :=
  if !prevIdle && s.idle && s.extension_running && !s.locked then
    { s with idle_start_ts := some q,
             idle_cmd := firstFocusedCmd s.hash_to_cmd prevW,
             idle_focused_hashes := focusedKeys prevW,
             idle_overlap := 0, idle_duration := 0 }
  else s

/-- The cutoff looked up for an episode command
(`cutoffs.get(idle_cmd, 0.0)`). -/
def cutoffOf (cut : List (String × ℚ)) : Option String → ℚ
  | none => 0
  | some c => (dget cut c).getD 0

/-- Idle-episode close and cutoff reclassification
(rawlog.py lines 259-284). -/
def detectClose (cut : List (String × ℚ)) (s : AState) (prevIdle : Bool) :
    AState :=
  if prevIdle && (!s.idle || !s.extension_running || s.locked) then
    let s :=
      match s.idle_start_ts with
      | none => s
      | some _ =>
        let cutoff := cutoffOf cut s.idle_cmd
        let treat := s.idle_cmd.isSome && decide (s.idle_duration < cutoff)
          && s.extension_running && !s.locked && !s.idle
        if treat then
          { s with stats := (attribute_focus s.hash_to_title s.hash_to_cmd
              s.stats s.idle_focused_hashes s.idle_overlap) }
        else
          let post := focusedKeys s.prev_windows
          let shared := (s.idle_focused_hashes.filter
            (fun h => post.contains h)).dedup
          let stats := shared.foldl
            (fun acc h =>
              dmodify (ensure_entry s.hash_to_title s.hash_to_cmd acc h) h
                (fun e => { e with idle_seconds := e.idle_seconds + s.idle_overlap }))
            s.stats
          { s with total_idle := s.total_idle + s.idle_overlap, stats := stats }
    { s with idle_start_ts := none, idle_cmd := none,
             idle_focused_hashes := [], idle_overlap := 0, idle_duration := 0 }
  else s

/-- One iteration of the `analyze` loop for a record whose timestamp
parsed to `q`. -/
def stepCore (t1 t2 : ℚ) (cut : List (String × ℚ)) (s : AState) (q : ℚ)
    (b : RecBody) : AState :=
  let s1 := attributeInterval t1 t2 s q
  let prevIdle := s.idle
  let prevW := s.prev_windows
  let s2 := applyBody t1 t2 q s1 b
  let s3 := detectOpen s2 prevIdle prevW q
  let s4 := detectClose cut s3 prevIdle
  { s4 with prev_ts := some q }

/-- One iteration of the `analyze` loop.  A record with an absent
timestamp is skipped; one whose timestamp `float()` cannot parse raises,
modelled as `none`. -/
def stepA (t1 t2 : ℚ) (cut : List (String × ℚ)) (s : AState) (r : Rec) :
    Option AState :=
  match r.ts with
  | .absent => some s
  | .bad => none
  | .num q => some (stepCore t1 t2 cut s q r.body)

/-- The engine state after folding `analyze`'s loop over the records. -/
def analyzeState (es : List Rec) (t1 t2 : ℚ) (cut : List (String × ℚ)) :
    Option AState :=
  es.foldlM (stepA t1 t2 cut) initAState

/-- The return value of `analyze`. -/
structure Output where
  stats : List (String × Entry)
  hash_to_title : List (String × String)
  hash_to_cmd : List (String × String)
  total_idle : ℚ
  total_locked : ℚ
  total_stopped : ℚ
  deriving DecidableEq, Repr

def mkOutput (s : AState) : Output :=
  { stats := s.stats, hash_to_title := s.hash_to_title,
    hash_to_cmd := s.hash_to_cmd, total_idle := s.total_idle,
    total_locked := s.total_locked, total_stopped := s.total_stopped }

/-- rawlog.py `analyze`. -/
def analyze (es : List Rec) (t1 t2 : ℚ) (cut : List (String × ℚ)) :
    Option Output :=
  (analyzeState es t1 t2 cut).map mkOutput

/-! ### showidles.py `extract_idle_durations` -/

/-- One tracked window of showidles.py (`windows_new[h]`): focused flag
and resolved command (`""` models `None`). -/
structure SWin where
  focused : Bool
  cmd : String
  deriving DecidableEq, Repr

/-- The loop state of `extract_idle_durations` (showidles.py). -/
structure SState where
  hash_to_cmd : List (String × String)
  prev_windows : List (String × SWin)
  extension_running : Bool
  idle : Bool
  locked : Bool
  idle_start_ts : Option ℚ
  idle_cmd : Option String
  durations : List (String × List ℚ)
  deriving DecidableEq, Repr

def initSState : SState :=
  { hash_to_cmd := [], prev_windows := [], extension_running := false,
    idle := false, locked := false, idle_start_ts := none, idle_cmd := none,
    durations := [] }

/-- Fold step over one `windows` entry (showidles.py lines 135-146). -/
def sProcessWindow
    (acc : List (String × String) × List (String × SWin)) (w : WindowInfo) :
    List (String × String) × List (String × SWin) :=
  let (hc, wn) := acc
  if w.hash = "" then (hc, wn)
  else
    let hc :=
      if w.cmd ≠ "" ∧ dget hc w.hash = none then dinsert hc w.hash w.cmd
      else hc
    let cmdv := if w.cmd ≠ "" then w.cmd else (dget hc w.hash).getD ""
    (hc, dinsert wn w.hash { focused := w.focused, cmd := cmdv })

/-- The new collector flags/maps computed from this record
(showidles.py lines 116-146): `(new_extension_running, new_idle,
new_locked, hash_to_cmd, windows_new)`. -/
def sFlags (s : SState) (b : RecBody) :
    Bool × Bool × Bool × List (String × String) × List (String × SWin) :=
  match b with
  | .restart => (true, false, false, s.hash_to_cmd, [])
  | .stopped => (false, s.idle, s.locked, s.hash_to_cmd, [])
  | .snapshot idleF lockedF ws =>
    let (hc, wn) := ws.foldl sProcessWindow (s.hash_to_cmd, [])
    (true, idleF.getD false, lockedF.getD false, hc, wn)
  | .other =>
    (s.extension_running, s.idle, s.locked, s.hash_to_cmd, s.prev_windows)

/-- The command focused after an idle period resumes
(showidles.py lines 160-167): `None` unless the new state is
running-active. -/
def sEndCmd (newRun newIdle newLocked : Bool) (wn : List (String × SWin)) :
    Option String :=
  if newRun && !newIdle && !newLocked then
    ((wn.filter (fun p => p.2.focused && p.2.cmd ≠ "")).map (·.2.cmd)).head?
  else none

/-- Idle-period close check (showidles.py lines 148-182): returns the
updated `(idle_start_ts, idle_cmd, durations_by_cmd)`. -/
def sClose (t1 t2 : ℚ) (inc : Bool) (cut : List (String × ℚ)) (q : ℚ)
    (newRun newIdle newLocked : Bool) (wn : List (String × SWin))
    (startTs : Option ℚ) (idleCmd : Option String)
    (durs : List (String × List ℚ)) :
    Option ℚ × Option String × List (String × List ℚ) :=
  match startTs with
  | none => (none, idleCmd, durs)
  | some st =>
    if !newRun || newLocked || !newIdle then
      let durs :=
        if t1 ≤ q ∧ st ≤ t2 then
          let duration := min q t2 - max st t1
          if 0 < duration then
            let endCmd := sEndCmd newRun newIdle newLocked wn
            if idleCmd.isSome && (inc || idleCmd == endCmd) then
              match idleCmd with
              | some c =>
                if cutoffOf cut (some c) ≤ duration then dappendDur durs c duration
                else durs
              | none => durs
            else durs
          else durs
        else durs
      (none, none, durs)
    else (some st, idleCmd, durs)

/-- Idle-period open check (showidles.py lines 184-201): returns the
updated `(idle_start_ts, idle_cmd)`.  Note the source inspects only the
FIRST focused window of the previous snapshot. -/
def sOpen (prevW : List (String × SWin)) (hc : List (String × String))
    (oldIdle newRun newIdle newLocked : Bool) (q : ℚ)
    (startTs : Option ℚ) (idleCmd : Option String) :
    Option ℚ × Option String :=
  if startTs.isNone && !oldIdle && newIdle && newRun && !newLocked then
    let focusedCmds := (prevW.filter (·.2.focused)).map
      (fun p => if p.2.cmd ≠ "" then p.2.cmd else (dget hc p.1).getD "")
    let startCmd := focusedCmds.head?.getD ""
    if startCmd ≠ "" then (some q, some startCmd) else (startTs, idleCmd)
  else (startTs, idleCmd)

/-- One iteration of the `extract_idle_durations` loop for a record
whose timestamp parsed to `q`. -/
def sStepCore (t1 t2 : ℚ) (inc : Bool) (cut : List (String × ℚ))
    (s : SState) (q : ℚ) (b : RecBody) : SState :=
  let (newRun, newIdle, newLocked, hc, wn) := sFlags s b
  let (st1, cmd1, durs1) := sClose t1 t2 inc cut q newRun newIdle newLocked wn
    s.idle_start_ts s.idle_cmd s.durations
  let (st2, cmd2) := sOpen s.prev_windows hc s.idle newRun newIdle newLocked q
    st1 cmd1
  { hash_to_cmd := hc, prev_windows := wn, extension_running := newRun,
    idle := newIdle, locked := newLocked, idle_start_ts := st2,
    idle_cmd := cmd2, durations := durs1 }

/-- One iteration of the `extract_idle_durations` loop. -/
def sStep (t1 t2 : ℚ) (inc : Bool) (cut : List (String × ℚ)) (s : SState)
    (r : Rec) : Option SState :=
  match r.ts with
  | .absent => some s
  | .bad => none
  | .num q => some (sStepCore t1 t2 inc cut s q r.body)

/-- The engine state after folding `extract_idle_durations`'s loop. -/
def extractState (es : List Rec) (t1 t2 : ℚ) (inc : Bool)
    (cut : List (String × ℚ)) : Option SState :=
  es.foldlM (sStep t1 t2 inc cut) initSState

/-- showidles.py `extract_idle_durations`. -/
def extractIdleDurations (es : List Rec) (t1 t2 : ℚ) (inc : Bool)
    (cut : List (String × ℚ)) : Option (List (String × List ℚ)) :=
  (extractState es t1 t2 inc cut).map (·.durations)

/-! ### Association-list lemmas -/

theorem dget_dinsert {β : Type} (m : List (String × β)) (k h : String)
    (v : β) :
    dget (dinsert m k v) h = if k = h then some v else dget m h := by
  induction m with
  | nil => simp [dget, dinsert]
  | cons a t ih =>
    rcases a with ⟨k', v'⟩
    by_cases hk : k' = k
    · subst hk
      by_cases hh : k' = h <;> simp [dget, dinsert, hh]
    · by_cases hh : k' = h
      · subst hh
        simp [dget, dinsert, hk]
        rw [if_neg (fun h' => hk h'.symm)]
      · simp [dget, dinsert, hk, hh, ih]

theorem dget_dmodify {β : Type} (m : List (String × β)) (k h : String)
    (f : β → β) :
    dget (dmodify m k f) h =
      if k = h then (dget m k).map f else dget m h := by
  induction m with
  | nil => simp [dget, dmodify]
  | cons a t ih =>
    rcases a with ⟨k', v'⟩
    by_cases hk : k' = k
    · subst hk
      by_cases hh : k' = h <;> simp [dget, dmodify, hh]
    · by_cases hh : k' = h
      · subst hh
        simp [dget, dmodify, hk]
        rw [if_neg (fun h' => hk h'.symm)]
      · simp [dget, dmodify, hk, hh, ih]

/-- Generic fold-invariance: a fold whose step preserves a projection
preserves it globally. -/
theorem foldl_fixed {α γ δ : Type} (f : α → γ → α) (g : α → δ)
    (l : List γ) (a : α) (hf : ∀ a c, c ∈ l → g (f a c) = g a) :
    g (l.foldl f a) = g a := by
  induction l generalizing a with
  | nil => rfl
  | cons c t ih =>
    rw [List.foldl_cons, ih _ (fun a c hc => hf a c (List.mem_cons_of_mem _ hc))]
    exact hf a c (List.mem_cons_self _ _)

/-! ### Per-entity stat getters -/

/-- Focused seconds recorded for an entity (`0` if no entry). -/
def focusOf (st : List (String × Entry)) (h : String) : ℚ :=
  ((dget st h).map (·.focus_seconds)).getD 0

/-- Idle seconds recorded for an entity (`0` if no entry). -/
def idleOf (st : List (String × Entry)) (h : String) : ℚ :=
  ((dget st h).map (·.idle_seconds)).getD 0

/-- Activations recorded for an entity (`0` if no entry). -/
def actOf (st : List (String × Entry)) (h : String) : ℕ :=
  ((dget st h).map (·.activations)).getD 0

/-- Sum of all recorded focused seconds. -/
def sumFocus (st : List (String × Entry)) : ℚ :=
  (st.map (·.2.focus_seconds)).sum

theorem focusOf_ensure (ht hc : List (String × String))
    (st : List (String × Entry)) (k h : String) :
    focusOf (ensure_entry ht hc st k) h = focusOf st h := by
  unfold ensure_entry focusOf
  rcases hg : dget st k with _ | e
  · rw [dget_dinsert]
    by_cases hk : k = h
    · subst hk; simp [hg]
    · simp [hk]
  · rfl

theorem idleOf_ensure (ht hc : List (String × String))
    (st : List (String × Entry)) (k h : String) :
    idleOf (ensure_entry ht hc st k) h = idleOf st h := by
  unfold ensure_entry idleOf
  rcases hg : dget st k with _ | e
  · rw [dget_dinsert]
    by_cases hk : k = h
    · subst hk; simp [hg]
    · simp [hk]
  · rfl

theorem actOf_ensure (ht hc : List (String × String))
    (st : List (String × Entry)) (k h : String) :
    actOf (ensure_entry ht hc st k) h = actOf st h := by
  unfold ensure_entry actOf
  rcases hg : dget st k with _ | e
  · rw [dget_dinsert]
    by_cases hk : k = h
    · subst hk; simp [hg]
    · simp [hk]
  · rfl

theorem dget_ensure_isSome (ht hc : List (String × String))
    (st : List (String × Entry)) (k : String) :
    (dget (ensure_entry ht hc st k) k).isSome := by
  unfold ensure_entry
  rcases hg : dget st k with _ | e
  · rw [dget_dinsert]; simp
  · simp [hg]

theorem focusOf_dmodify_pres (st : List (String × Entry)) (k h : String)
    (f : Entry → Entry) (hf : ∀ e, (f e).focus_seconds = e.focus_seconds) :
    focusOf (dmodify st k f) h = focusOf st h := by
  unfold focusOf
  rw [dget_dmodify]
  by_cases hk : k = h
  · subst hk
    rcases dget st k with _ | e <;> simp [hf]
  · simp [hk]

theorem idleOf_dmodify_pres (st : List (String × Entry)) (k h : String)
    (f : Entry → Entry) (hf : ∀ e, (f e).idle_seconds = e.idle_seconds) :
    idleOf (dmodify st k f) h = idleOf st h := by
  unfold idleOf
  rw [dget_dmodify]
  by_cases hk : k = h
  · subst hk
    rcases dget st k with _ | e <;> simp [hf]
  · simp [hk]

theorem actOf_dmodify_pres (st : List (String × Entry)) (k h : String)
    (f : Entry → Entry) (hf : ∀ e, (f e).activations = e.activations) :
    actOf (dmodify st k f) h = actOf st h := by
  unfold actOf
  rw [dget_dmodify]
  by_cases hk : k = h
  · subst hk
    rcases dget st k with _ | e <;> simp [hf]
  · simp [hk]

theorem focusOf_dinsert_same (st : List (String × Entry)) (k h : String)
    (e e' : Entry) (hg : dget st k = some e)
    (hf : e'.focus_seconds = e.focus_seconds) :
    focusOf (dinsert st k e') h = focusOf st h := by
  unfold focusOf
  rw [dget_dinsert]
  by_cases hk : k = h
  · subst hk; simp [hg, hf]
  · simp [hk]

theorem idleOf_dinsert_same (st : List (String × Entry)) (k h : String)
    (e e' : Entry) (hg : dget st k = some e)
    (hf : e'.idle_seconds = e.idle_seconds) :
    idleOf (dinsert st k e') h = idleOf st h := by
  unfold idleOf
  rw [dget_dinsert]
  by_cases hk : k = h
  · subst hk; simp [hg, hf]
  · simp [hk]

theorem actOf_dinsert_same (st : List (String × Entry)) (k h : String)
    (e e' : Entry) (hg : dget st k = some e)
    (hf : e'.activations = e.activations) :
    actOf (dinsert st k e') h = actOf st h := by
  unfold actOf
  rw [dget_dinsert]
  by_cases hk : k = h
  · subst hk; simp [hg, hf]
  · simp [hk]

/-- One `_attribute_focus` iteration on the tracked entity adds the
interval; other entities are untouched. -/
theorem focusOf_ensure_modify (ht hc : List (String × String))
    (st : List (String × Entry)) (k h : String) (iv : ℚ) :
    focusOf (dmodify (ensure_entry ht hc st k) k
        (fun e => { e with focus_seconds := e.focus_seconds + iv })) h =
      focusOf st h + (if k = h then iv else 0) := by
  by_cases hk : k = h
  · subst hk
    unfold focusOf
    rw [dget_dmodify, if_pos rfl]
    have h1 : focusOf (ensure_entry ht hc st k) k = focusOf st k :=
      focusOf_ensure ht hc st k k
    rcases hg : dget (ensure_entry ht hc st k) k with _ | e
    · exact absurd hg
        (Option.isSome_iff_ne_none.mp (dget_ensure_isSome ht hc st k))
    · have he : e.focus_seconds = focusOf st k := by
        unfold focusOf at h1
        rw [hg] at h1
        simpa using h1
      simp [he, focusOf]
  · rw [if_neg hk]
    unfold focusOf
    rw [dget_dmodify, if_neg hk]
    have h2 := focusOf_ensure ht hc st k h
    unfold focusOf at h2
    rw [h2]
    ring

theorem focusOf_attribute_focus (ht hc : List (String × String))
    (st : List (String × Entry)) (hs : List String) (iv : ℚ) (h : String) :
    focusOf (attribute_focus ht hc st hs iv) h =
      focusOf st h + (hs.count h : ℚ) * iv := by
  induction hs generalizing st with
  | nil => simp [attribute_focus]
  | cons k t ih =>
    have step : attribute_focus ht hc st (k :: t) iv =
        attribute_focus ht hc
          (dmodify (ensure_entry ht hc st k) k
            (fun e => { e with focus_seconds := e.focus_seconds + iv })) t iv := by
      simp [attribute_focus]
    rw [step, ih, focusOf_ensure_modify]
    by_cases hk : k = h
    · subst hk
      simp [List.count_cons]
      ring
    · simp [List.count_cons, hk, Ne.symm hk]

theorem idleOf_attribute_focus (ht hc : List (String × String))
    (st : List (String × Entry)) (hs : List String) (iv : ℚ) (h : String) :
    idleOf (attribute_focus ht hc st hs iv) h = idleOf st h := by
  unfold attribute_focus
  exact foldl_fixed _ (idleOf · h) hs st (fun a c _ => by
    show idleOf (dmodify (ensure_entry ht hc a c) c
      (fun e => { e with focus_seconds := e.focus_seconds + iv })) h = idleOf a h
    rw [idleOf_dmodify_pres _ _ _
      (fun e => { e with focus_seconds := e.focus_seconds + iv })
      (fun e => rfl), idleOf_ensure])

theorem actOf_attribute_focus (ht hc : List (String × String))
    (st : List (String × Entry)) (hs : List String) (iv : ℚ) (h : String) :
    actOf (attribute_focus ht hc st hs iv) h = actOf st h := by
  unfold attribute_focus
  exact foldl_fixed _ (actOf · h) hs st (fun a c _ => by
    show actOf (dmodify (ensure_entry ht hc a c) c
      (fun e => { e with focus_seconds := e.focus_seconds + iv })) h = actOf a h
    rw [actOf_dmodify_pres _ _ _
      (fun e => { e with focus_seconds := e.focus_seconds + iv })
      (fun e => rfl), actOf_ensure])

/-! ### `sumFocus` lemmas -/

theorem sumFocus_dinsert_new (m : List (String × Entry)) (k : String)
    (v : Entry) (hg : dget m k = none) :
    sumFocus (dinsert m k v) = sumFocus m + v.focus_seconds := by
  induction m with
  | nil => simp [sumFocus, dinsert]
  | cons a t ih =>
    rcases a with ⟨k', v'⟩
    by_cases hk : k' = k
    · subst hk; simp [dget] at hg
    · have hg' : dget t k = none := by simpa [dget, hk] using hg
      simp [dinsert, hk, sumFocus] at ih ⊢
      rw [ih hg']
      ring

theorem sumFocus_dinsert_upd (m : List (String × Entry)) (k : String)
    (v e : Entry) (hg : dget m k = some e) :
    sumFocus (dinsert m k v) =
      sumFocus m + v.focus_seconds - e.focus_seconds := by
  induction m with
  | nil => simp [dget] at hg
  | cons a t ih =>
    rcases a with ⟨k', v'⟩
    by_cases hk : k' = k
    · subst hk
      simp [dget] at hg
      subst hg
      simp [dinsert, sumFocus]
      ring
    · have hg' : dget t k = some e := by simpa [dget, hk] using hg
      simp [dinsert, hk, sumFocus] at ih ⊢
      rw [ih hg']
      ring

theorem sumFocus_ensure (ht hc : List (String × String))
    (st : List (String × Entry)) (k : String) :
    sumFocus (ensure_entry ht hc st k) = sumFocus st := by
  unfold ensure_entry
  rcases hg : dget st k with _ | e
  · rw [sumFocus_dinsert_new _ _ _ hg]
    simp
  · rfl

theorem sumFocus_dmodify (m : List (String × Entry)) (k : String)
    (f : Entry → Entry) :
    sumFocus (dmodify m k f) = sumFocus m +
      (match dget m k with
       | some e => (f e).focus_seconds - e.focus_seconds
       | none => 0) := by
  induction m with
  | nil => simp [sumFocus, dmodify, dget]
  | cons a t ih =>
    rcases a with ⟨k', v'⟩
    by_cases hk : k' = k
    · subst hk
      simp [dmodify, dget, sumFocus]
      ring
    · simp [dmodify, dget, hk, sumFocus] at ih ⊢
      rw [ih]
      ring

theorem sumFocus_ensure_modify (ht hc : List (String × String))
    (st : List (String × Entry)) (k : String) (iv : ℚ) :
    sumFocus (dmodify (ensure_entry ht hc st k) k
        (fun e => { e with focus_seconds := e.focus_seconds + iv })) =
      sumFocus st + iv := by
  rw [sumFocus_dmodify]
  rcases hg : dget (ensure_entry ht hc st k) k with _ | e
  · exact absurd hg
      (Option.isSome_iff_ne_none.mp (dget_ensure_isSome ht hc st k))
  · rw [sumFocus_ensure]
    ring

theorem sumFocus_attribute_focus (ht hc : List (String × String))
    (st : List (String × Entry)) (hs : List String) (iv : ℚ) :
    sumFocus (attribute_focus ht hc st hs iv) =
      sumFocus st + (hs.length : ℚ) * iv := by
  induction hs generalizing st with
  | nil => simp [attribute_focus]
  | cons k t ih =>
    have step : attribute_focus ht hc st (k :: t) iv =
        attribute_focus ht hc
          (dmodify (ensure_entry ht hc st k) k
            (fun e => { e with focus_seconds := e.focus_seconds + iv })) t iv := by
      simp [attribute_focus]
    rw [step, ih, sumFocus_ensure_modify, List.length_cons]
    push_cast
    ring

/-! ### Projection-preservation lemmas for the step phases -/

theorem attributeInterval_hash_to_title (t1 t2 q : ℚ) (s : AState) :
    (attributeInterval t1 t2 s q).hash_to_title = s.hash_to_title := by
  rcases hp : s.prev_ts with _ | p <;> simp only [attributeInterval, hp]
  repeat' split
  all_goals rfl

theorem attributeInterval_hash_to_cmd (t1 t2 q : ℚ) (s : AState) :
    (attributeInterval t1 t2 s q).hash_to_cmd = s.hash_to_cmd := by
  rcases hp : s.prev_ts with _ | p <;> simp only [attributeInterval, hp]
  repeat' split
  all_goals rfl

theorem attributeInterval_prev_ts (t1 t2 q : ℚ) (s : AState) :
    (attributeInterval t1 t2 s q).prev_ts = s.prev_ts := by
  rcases hp : s.prev_ts with _ | p <;> simp only [attributeInterval, hp]
  repeat' split
  all_goals simp [hp]

theorem attributeInterval_prev_windows (t1 t2 q : ℚ) (s : AState) :
    (attributeInterval t1 t2 s q).prev_windows = s.prev_windows := by
  rcases hp : s.prev_ts with _ | p <;> simp only [attributeInterval, hp]
  repeat' split
  all_goals rfl

theorem attributeInterval_extension_running (t1 t2 q : ℚ) (s : AState) :
    (attributeInterval t1 t2 s q).extension_running = s.extension_running := by
  rcases hp : s.prev_ts with _ | p <;> simp only [attributeInterval, hp]
  repeat' split
  all_goals rfl

theorem attributeInterval_idle (t1 t2 q : ℚ) (s : AState) :
    (attributeInterval t1 t2 s q).idle = s.idle := by
  rcases hp : s.prev_ts with _ | p <;> simp only [attributeInterval, hp]
  repeat' split
  all_goals rfl

theorem attributeInterval_locked (t1 t2 q : ℚ) (s : AState) :
    (attributeInterval t1 t2 s q).locked = s.locked := by
  rcases hp : s.prev_ts with _ | p <;> simp only [attributeInterval, hp]
  repeat' split
  all_goals rfl

theorem applyBody_prev_ts (t1 t2 q : ℚ) (s : AState) (b : RecBody) :
    (applyBody t1 t2 q s b).prev_ts = s.prev_ts := by
  cases b <;> simp only [applyBody]
  repeat' split
  all_goals rfl

theorem applyBody_total_idle (t1 t2 q : ℚ) (s : AState) (b : RecBody) :
    (applyBody t1 t2 q s b).total_idle = s.total_idle := by
  cases b <;> simp only [applyBody]
  repeat' split
  all_goals rfl

theorem applyBody_total_locked (t1 t2 q : ℚ) (s : AState) (b : RecBody) :
    (applyBody t1 t2 q s b).total_locked = s.total_locked := by
  cases b <;> simp only [applyBody]
  repeat' split
  all_goals rfl

theorem applyBody_total_stopped (t1 t2 q : ℚ) (s : AState) (b : RecBody) :
    (applyBody t1 t2 q s b).total_stopped = s.total_stopped := by
  cases b <;> simp only [applyBody]
  repeat' split
  all_goals rfl

theorem applyBody_idle_start_ts (t1 t2 q : ℚ) (s : AState) (b : RecBody) :
    (applyBody t1 t2 q s b).idle_start_ts = s.idle_start_ts := by
  cases b <;> simp only [applyBody]
  repeat' split
  all_goals rfl

theorem applyBody_idle_cmd (t1 t2 q : ℚ) (s : AState) (b : RecBody) :
    (applyBody t1 t2 q s b).idle_cmd = s.idle_cmd := by
  cases b <;> simp only [applyBody]
  repeat' split
  all_goals rfl

theorem applyBody_idle_focused_hashes (t1 t2 q : ℚ) (s : AState) (b : RecBody) :
    (applyBody t1 t2 q s b).idle_focused_hashes = s.idle_focused_hashes := by
  cases b <;> simp only [applyBody]
  repeat' split
  all_goals rfl

theorem applyBody_idle_overlap (t1 t2 q : ℚ) (s : AState) (b : RecBody) :
    (applyBody t1 t2 q s b).idle_overlap = s.idle_overlap := by
  cases b <;> simp only [applyBody]
  repeat' split
  all_goals rfl

theorem applyBody_idle_duration (t1 t2 q : ℚ) (s : AState) (b : RecBody) :
    (applyBody t1 t2 q s b).idle_duration = s.idle_duration := by
  cases b <;> simp only [applyBody]
  repeat' split
  all_goals rfl

theorem detectOpen_hash_to_title (s : AState) (pI : Bool) (pW : List (String × Bool)) (q : ℚ) :
    (detectOpen s pI pW q).hash_to_title = s.hash_to_title := by
  simp only [detectOpen]
  repeat' split
  all_goals rfl

theorem detectOpen_hash_to_cmd (s : AState) (pI : Bool) (pW : List (String × Bool)) (q : ℚ) :
    (detectOpen s pI pW q).hash_to_cmd = s.hash_to_cmd := by
  simp only [detectOpen]
  repeat' split
  all_goals rfl

theorem detectOpen_stats (s : AState) (pI : Bool) (pW : List (String × Bool)) (q : ℚ) :
    (detectOpen s pI pW q).stats = s.stats := by
  simp only [detectOpen]
  repeat' split
  all_goals rfl

theorem detectOpen_prev_ts (s : AState) (pI : Bool) (pW : List (String × Bool)) (q : ℚ) :
    (detectOpen s pI pW q).prev_ts = s.prev_ts := by
  simp only [detectOpen]
  repeat' split
  all_goals rfl

theorem detectOpen_prev_windows (s : AState) (pI : Bool) (pW : List (String × Bool)) (q : ℚ) :
    (detectOpen s pI pW q).prev_windows = s.prev_windows := by
  simp only [detectOpen]
  repeat' split
  all_goals rfl

theorem detectOpen_extension_running (s : AState) (pI : Bool) (pW : List (String × Bool)) (q : ℚ) :
    (detectOpen s pI pW q).extension_running = s.extension_running := by
  simp only [detectOpen]
  repeat' split
  all_goals rfl

theorem detectOpen_idle (s : AState) (pI : Bool) (pW : List (String × Bool)) (q : ℚ) :
    (detectOpen s pI pW q).idle = s.idle := by
  simp only [detectOpen]
  repeat' split
  all_goals rfl

theorem detectOpen_locked (s : AState) (pI : Bool) (pW : List (String × Bool)) (q : ℚ) :
    (detectOpen s pI pW q).locked = s.locked := by
  simp only [detectOpen]
  repeat' split
  all_goals rfl

theorem detectOpen_total_idle (s : AState) (pI : Bool) (pW : List (String × Bool)) (q : ℚ) :
    (detectOpen s pI pW q).total_idle = s.total_idle := by
  simp only [detectOpen]
  repeat' split
  all_goals rfl

theorem detectOpen_total_locked (s : AState) (pI : Bool) (pW : List (String × Bool)) (q : ℚ) :
    (detectOpen s pI pW q).total_locked = s.total_locked := by
  simp only [detectOpen]
  repeat' split
  all_goals rfl

theorem detectOpen_total_stopped (s : AState) (pI : Bool) (pW : List (String × Bool)) (q : ℚ) :
    (detectOpen s pI pW q).total_stopped = s.total_stopped := by
  simp only [detectOpen]
  repeat' split
  all_goals rfl

theorem detectClose_hash_to_title (cut : List (String × ℚ)) (s : AState) (pI : Bool) :
    (detectClose cut s pI).hash_to_title = s.hash_to_title := by
  simp only [detectClose]
  repeat' split
  all_goals rfl

theorem detectClose_hash_to_cmd (cut : List (String × ℚ)) (s : AState) (pI : Bool) :
    (detectClose cut s pI).hash_to_cmd = s.hash_to_cmd := by
  simp only [detectClose]
  repeat' split
  all_goals rfl

theorem detectClose_prev_ts (cut : List (String × ℚ)) (s : AState) (pI : Bool) :
    (detectClose cut s pI).prev_ts = s.prev_ts := by
  simp only [detectClose]
  repeat' split
  all_goals rfl

theorem detectClose_prev_windows (cut : List (String × ℚ)) (s : AState) (pI : Bool) :
    (detectClose cut s pI).prev_windows = s.prev_windows := by
  simp only [detectClose]
  repeat' split
  all_goals rfl

theorem detectClose_extension_running (cut : List (String × ℚ)) (s : AState) (pI : Bool) :
    (detectClose cut s pI).extension_running = s.extension_running := by
  simp only [detectClose]
  repeat' split
  all_goals rfl

theorem detectClose_idle (cut : List (String × ℚ)) (s : AState) (pI : Bool) :
    (detectClose cut s pI).idle = s.idle := by
  simp only [detectClose]
  repeat' split
  all_goals rfl

theorem detectClose_locked (cut : List (String × ℚ)) (s : AState) (pI : Bool) :
    (detectClose cut s pI).locked = s.locked := by
  simp only [detectClose]
  repeat' split
  all_goals rfl

theorem detectClose_total_locked (cut : List (String × ℚ)) (s : AState) (pI : Bool) :
    (detectClose cut s pI).total_locked = s.total_locked := by
  simp only [detectClose]
  repeat' split
  all_goals rfl

theorem detectClose_total_stopped (cut : List (String × ℚ)) (s : AState) (pI : Bool) :
    (detectClose cut s pI).total_stopped = s.total_stopped := by
  simp only [detectClose]
  repeat' split
  all_goals rfl

/-! ### Flag behaviour of the state-update phase -/

theorem applyBody_snapshot_idle (t1 t2 q : ℚ) (s : AState)
    (idleF lockedF : Option Bool) (ws : List WindowInfo) :
    (applyBody t1 t2 q s (.snapshot idleF lockedF ws)).idle =
      idleF.getD false := by
  simp only [applyBody]

theorem applyBody_snapshot_locked (t1 t2 q : ℚ) (s : AState)
    (idleF lockedF : Option Bool) (ws : List WindowInfo) :
    (applyBody t1 t2 q s (.snapshot idleF lockedF ws)).locked =
      lockedF.getD false := by
  simp only [applyBody]

theorem applyBody_snapshot_extension_running (t1 t2 q : ℚ) (s : AState)
    (idleF lockedF : Option Bool) (ws : List WindowInfo) :
    (applyBody t1 t2 q s (.snapshot idleF lockedF ws)).extension_running =
      true := by
  simp only [applyBody]

theorem applyBody_idle_only (t1 t2 q : ℚ) (s s' : AState) (b : RecBody)
    (h : s.idle = s'.idle) :
    (applyBody t1 t2 q s b).idle = (applyBody t1 t2 q s' b).idle := by
  cases b <;> simp only [applyBody] <;> exact h

theorem applyBody_locked_only (t1 t2 q : ℚ) (s s' : AState) (b : RecBody)
    (h : s.locked = s'.locked) :
    (applyBody t1 t2 q s b).locked = (applyBody t1 t2 q s' b).locked := by
  cases b <;> simp only [applyBody] <;> exact h

theorem applyBody_running_only (t1 t2 q : ℚ) (s s' : AState) (b : RecBody)
    (h : s.extension_running = s'.extension_running) :
    (applyBody t1 t2 q s b).extension_running =
      (applyBody t1 t2 q s' b).extension_running := by
  cases b <;> simp only [applyBody] <;> exact h

theorem stepCore_prev_ts (t1 t2 q : ℚ) (cut : List (String × ℚ))
    (s : AState) (b : RecBody) :
    (stepCore t1 t2 cut s q b).prev_ts = some q := by
  simp only [stepCore]

theorem stepCore_idle (t1 t2 q : ℚ) (cut : List (String × ℚ))
    (s : AState) (b : RecBody) :
    (stepCore t1 t2 cut s q b).idle = (applyBody t1 t2 q s b).idle := by
  simp only [stepCore]
  rw [detectClose_idle, detectOpen_idle]
  exact applyBody_idle_only _ _ _ _ _ _ (attributeInterval_idle t1 t2 q s)

theorem stepCore_locked (t1 t2 q : ℚ) (cut : List (String × ℚ))
    (s : AState) (b : RecBody) :
    (stepCore t1 t2 cut s q b).locked = (applyBody t1 t2 q s b).locked := by
  simp only [stepCore]
  rw [detectClose_locked, detectOpen_locked]
  exact applyBody_locked_only _ _ _ _ _ _ (attributeInterval_locked t1 t2 q s)

theorem stepCore_extension_running (t1 t2 q : ℚ) (cut : List (String × ℚ))
    (s : AState) (b : RecBody) :
    (stepCore t1 t2 cut s q b).extension_running =
      (applyBody t1 t2 q s b).extension_running := by
  simp only [stepCore]
  rw [detectClose_extension_running, detectOpen_extension_running]
  exact applyBody_running_only _ _ _ _ _ _
    (attributeInterval_extension_running t1 t2 q s)

theorem sStepCore_idle (t1 t2 q : ℚ) (inc : Bool) (cut : List (String × ℚ))
    (s : SState) (b : RecBody) :
    (sStepCore t1 t2 inc cut s q b).idle = (sFlags s b).2.1 := by
  rcases hf : sFlags s b with ⟨nr, ni, nl, hc, wn⟩
  simp only [sStepCore, hf]

theorem sStepCore_locked (t1 t2 q : ℚ) (inc : Bool) (cut : List (String × ℚ))
    (s : SState) (b : RecBody) :
    (sStepCore t1 t2 inc cut s q b).locked = (sFlags s b).2.2.1 := by
  rcases hf : sFlags s b with ⟨nr, ni, nl, hc, wn⟩
  simp only [sStepCore, hf]

theorem sFlags_snapshot_idle (s : SState) (idleF lockedF : Option Bool)
    (ws : List WindowInfo) :
    (sFlags s (.snapshot idleF lockedF ws)).2.1 = idleF.getD false := by
  simp only [sFlags]

theorem sFlags_snapshot_locked (s : SState) (idleF lockedF : Option Bool)
    (ws : List WindowInfo) :
    (sFlags s (.snapshot idleF lockedF ws)).2.2.1 = lockedF.getD false := by
  simp only [sFlags]

/-! ### C1 -/

/-- C1 counterexample: a snapshot at ts 0 sets the engine idle flag to
true; a following snapshot at ts 1 that omits the idle field resets it
to false in both engines, instead of keeping the previous value as the
claim states. -/
theorem C1_counterexample :
    ((analyzeState [⟨.num 0, .snapshot (some true) (some false) []⟩]
        0 10 []).map (·.idle) = some true)
    ∧ ((analyzeState [⟨.num 0, .snapshot (some true) (some false) []⟩,
        ⟨.num 1, .snapshot none none []⟩] 0 10 []).map (·.idle) = some false)
    ∧ ((extractState [⟨.num 0, .snapshot (some true) (some false) []⟩]
        0 10 false []).map (·.idle) = some true)
    ∧ ((extractState [⟨.num 0, .snapshot (some true) (some false) []⟩,
        ⟨.num 1, .snapshot none none []⟩] 0 10 false []).map (·.idle)
        = some false) := by
  refine ⟨?_, ?_, ?_, ?_⟩ <;>
    norm_num [analyzeState, stepA, stepCore, attributeInterval, applyBody,
      detectOpen, detectClose, ival, initAState, List.foldlM, firstFocusedCmd,
      focusedKeys, dget, dinsert, dmodify, ensure_entry, attribute_focus,
      processWindow, cutoffOf, extractState, sStep, sStepCore, sFlags,
      sProcessWindow, sClose, sOpen, sEndCmd, dappendDur, initSState]

/-- C1 (amended): in both `analyze` and `extract_idle_durations`, a
snapshot record's `idle`/`locked` field is taken verbatim when present
and defaults to FALSE when the field is absent — the engine never keeps
the previous value for an absent field. -/
theorem C1_snapshot_flag_defaults_to_false
    (t1 t2 q : ℚ) (cut : List (String × ℚ)) (inc : Bool) (s : AState)
    (s' : SState) (idleF lockedF : Option Bool) (ws : List WindowInfo) :
    ((stepCore t1 t2 cut s q (.snapshot idleF lockedF ws)).idle
        = idleF.getD false)
    ∧ ((stepCore t1 t2 cut s q (.snapshot idleF lockedF ws)).locked
        = lockedF.getD false)
    ∧ ((sStepCore t1 t2 inc cut s' q (.snapshot idleF lockedF ws)).idle
        = idleF.getD false)
    ∧ ((sStepCore t1 t2 inc cut s' q (.snapshot idleF lockedF ws)).locked
        = lockedF.getD false) := by
  refine ⟨?_, ?_, ?_, ?_⟩
  · rw [stepCore_idle, applyBody_snapshot_idle]
  · rw [stepCore_locked, applyBody_snapshot_locked]
  · rw [sStepCore_idle, sFlags_snapshot_idle]
  · rw [sStepCore_locked, sFlags_snapshot_locked]

/-! ### C6 -/

theorem foldlM_append_opt {α β : Type} (f : β → α → Option β)
    (l1 l2 : List α) (b : β) :
    (l1 ++ l2).foldlM f b = (l1.foldlM f b).bind (fun b' => l2.foldlM f b') := by
  induction l1 generalizing b with
  | nil => simp [List.foldlM]
  | cons a t ih =>
    rcases hfa : f b a with _ | b'
    · simp [List.foldlM, hfa]
    · simp [List.foldlM, hfa, ih]

theorem foldlM_cons_opt {α β : Type} (f : β → α → Option β)
    (a : α) (l : List α) (b : β) :
    (a :: l).foldlM f b = (f b a).bind (fun b' => l.foldlM f b') := by
  rcases hfa : f b a with _ | b' <;> simp [List.foldlM, hfa]

/-- C6 counterexample: a single record whose `ts` value `float()` cannot
parse makes both engines raise (modelled as `none`) — the record is not
skipped, contradicting the claim that the engine never aborts on such a
record. -/
theorem C6_counterexample :
    analyze [⟨.bad, .other⟩] 0 1 [] = none
    ∧ extractIdleDurations [⟨.bad, .other⟩] 0 1 false [] = none := by
  constructor <;> rfl

/-- C6 (amended): a record whose `ts` key is missing (or null) is
skipped entirely by both engines — the run is the same as if the record
were deleted, in particular `prev_ts` and all other state are kept —
but a record whose `ts` value is present and unparsable makes the whole
run abort (Python `float(ts)` raises), wherever it occurs. -/
theorem C6_ts_handling (es1 es2 : List Rec) (r r' : Rec) (t1 t2 : ℚ)
    (inc : Bool) (cut : List (String × ℚ))
    (habs : r.ts = .absent) (hbad : r'.ts = .bad) :
    (analyzeState (es1 ++ r :: es2) t1 t2 cut
        = analyzeState (es1 ++ es2) t1 t2 cut)
    ∧ (extractState (es1 ++ r :: es2) t1 t2 inc cut
        = extractState (es1 ++ es2) t1 t2 inc cut)
    ∧ analyze (es1 ++ r' :: es2) t1 t2 cut = none
    ∧ extractIdleDurations (es1 ++ r' :: es2) t1 t2 inc cut = none := by
  have hstepA : ∀ s, stepA t1 t2 cut s r = some s := by
    intro s; simp [stepA, habs]
  have hstepS : ∀ s, sStep t1 t2 inc cut s r = some s := by
    intro s; simp [sStep, habs]
  have hstepA' : ∀ s, stepA t1 t2 cut s r' = none := by
    intro s; simp [stepA, hbad]
  have hstepS' : ∀ s, sStep t1 t2 inc cut s r' = none := by
    intro s; simp [sStep, hbad]
  refine ⟨?_, ?_, ?_, ?_⟩
  · unfold analyzeState
    rw [foldlM_append_opt, foldlM_append_opt]
    rcases List.foldlM (stepA t1 t2 cut) initAState es1 with _ | s
    · rfl
    · simp [foldlM_cons_opt, hstepA]
  · unfold extractState
    rw [foldlM_append_opt, foldlM_append_opt]
    rcases List.foldlM (sStep t1 t2 inc cut) initSState es1 with _ | s
    · rfl
    · simp [foldlM_cons_opt, hstepS]
  · unfold analyze analyzeState
    rw [foldlM_append_opt]
    rcases List.foldlM (stepA t1 t2 cut) initAState es1 with _ | s
    · rfl
    · simp [foldlM_cons_opt, hstepA']
  · unfold extractIdleDurations extractState
    rw [foldlM_append_opt]
    rcases List.foldlM (sStep t1 t2 inc cut) initSState es1 with _ | s
    · rfl
    · simp [foldlM_cons_opt, hstepS']

/-- C6 witness: the amended theorem applied to a concrete skipped record
and a concrete aborting record. -/
theorem C6_witness :
    (⟨.absent, .restart⟩ : Rec).ts = .absent
    ∧ (⟨.bad, .restart⟩ : Rec).ts = .bad
    ∧ (analyzeState [⟨.num 0, .restart⟩, ⟨.absent, .restart⟩] 0 1 []
        = analyzeState [⟨.num 0, .restart⟩] 0 1 [])
    ∧ analyze [⟨.num 0, .restart⟩, ⟨.bad, .restart⟩] 0 1 [] = none := by
  have h := C6_ts_handling [⟨.num 0, .restart⟩] [] ⟨.absent, .restart⟩
    ⟨.bad, .restart⟩ 0 1 false [] rfl rfl
  exact ⟨rfl, rfl, h.1, h.2.2.1⟩

/-! ### C10 -/

/-- The C10 invariant: every list in the durations map is non-empty and
strictly positive. -/
def GoodDurs (m : List (String × List ℚ)) : Prop :=
  ∀ c l, dget m c = some l → l ≠ [] ∧ ∀ d ∈ l, 0 < d

theorem goodDurs_dappendDur (m : List (String × List ℚ)) (k : String)
    (v : ℚ) (hm : GoodDurs m) (hv : 0 < v) : GoodDurs (dappendDur m k v) := by
  intro c l hl
  unfold dappendDur at hl
  rcases hg : dget m k with _ | l0 <;> rw [hg] at hl <;> rw [dget_dinsert] at hl
  · by_cases hk : k = c
    · rw [if_pos hk] at hl
      cases hl
      exact ⟨by simp, by simpa using hv⟩
    · rw [if_neg hk] at hl
      exact hm c l hl
  · by_cases hk : k = c
    · rw [if_pos hk] at hl
      cases hl
      refine ⟨by simp, ?_⟩
      intro d hd
      rcases List.mem_append.mp hd with hd | hd
      · exact (hm k l0 hg).2 d hd
      · obtain rfl := List.mem_singleton.mp hd
        exact hv
    · rw [if_neg hk] at hl
      exact hm c l hl

theorem sClose_durs (t1 t2 : ℚ) (inc : Bool) (cut : List (String × ℚ))
    (q : ℚ) (nr ni nl : Bool) (wn : List (String × SWin))
    (startTs : Option ℚ) (idleCmd : Option String)
    (durs : List (String × List ℚ)) :
    (sClose t1 t2 inc cut q nr ni nl wn startTs idleCmd durs).2.2 = durs
    ∨ ∃ c d, 0 < d ∧
      (sClose t1 t2 inc cut q nr ni nl wn startTs idleCmd durs).2.2 =
        dappendDur durs c d := by
  rcases startTs with _ | st
  · exact Or.inl rfl
  · dsimp only [sClose]
    split
    · dsimp only
      repeat' split
      all_goals try exact Or.inl rfl
      all_goals exact Or.inr ⟨_, _, by assumption, rfl⟩
    · exact Or.inl rfl

theorem extract_goodDurs_fold (t1 t2 : ℚ) (inc : Bool)
    (cut : List (String × ℚ)) (es : List Rec) (s s' : SState)
    (hg : GoodDurs s.durations)
    (hf : es.foldlM (sStep t1 t2 inc cut) s = some s') :
    GoodDurs s'.durations := by
  induction es generalizing s with
  | nil =>
    cases hf
    exact hg
  | cons r t ih =>
    rw [foldlM_cons_opt] at hf
    rcases hr : sStep t1 t2 inc cut s r with _ | s1
    · rw [hr] at hf; cases hf
    · rw [hr] at hf
      refine ih s1 ?_ hf
      rcases r with ⟨ts, b⟩
      rcases ts with _ | q | _
      · cases hr; exact hg
      · have hs1 : s1 = sStepCore t1 t2 inc cut s q b := by
          simpa [sStep] using hr.symm
        subst hs1
        rcases hff : sFlags s b with ⟨nr, ni, nl, hc, wn⟩
        have hd : (sStepCore t1 t2 inc cut s q b).durations =
            (sClose t1 t2 inc cut q nr ni nl wn s.idle_start_ts s.idle_cmd
              s.durations).2.2 := by
          simp only [sStepCore, hff]
        rw [hd]
        rcases sClose_durs t1 t2 inc cut q nr ni nl wn s.idle_start_ts
            s.idle_cmd s.durations with he | ⟨c, d, hdpos, he⟩
        · rw [he]; exact hg
        · rw [he]; exact goodDurs_dappendDur _ _ _ hg hdpos
      · cases hr

/-- C10: every list in the map returned by `extract_idle_durations` is
non-empty, and every duration in it is strictly positive — an episode
with zero or negative window overlap never produces an entry. -/
theorem C10_durations_positive (es : List Rec) (t1 t2 : ℚ) (inc : Bool)
    (cut : List (String × ℚ)) (m : List (String × List ℚ))
    (hm : extractIdleDurations es t1 t2 inc cut = some m) :
    ∀ c l, dget m c = some l → l ≠ [] ∧ ∀ d ∈ l, 0 < d := by
  unfold extractIdleDurations extractState at hm
  rcases hs : List.foldlM (sStep t1 t2 inc cut) initSState es with _ | s'
  · rw [hs] at hm; cases hm
  · rw [hs] at hm
    have hm' : m = s'.durations := by simpa using hm.symm
    subst hm'
    exact extract_goodDurs_fold t1 t2 inc cut es initSState s'
      (fun c l hl => by simp [initSState, dget] at hl) hs

/-- C10 witness: a concrete run producing `[("X", [60])]`, to which the
theorem applies. -/
theorem C10_witness :
    (extractIdleDurations
      [⟨.num 0, .restart⟩,
       ⟨.num 0, .snapshot (some false) (some false) [⟨"W", true, "", "X"⟩]⟩,
       ⟨.num 100, .snapshot (some true) (some false) [⟨"W", true, "", "X"⟩]⟩,
       ⟨.num 160, .snapshot (some false) (some false) [⟨"W", true, "", "X"⟩]⟩,
       ⟨.num 200, .snapshot (some false) (some false) [⟨"W", true, "", "X"⟩]⟩]
      0 200 false [] = some [("X", [(60 : ℚ)])])
    ∧ (dget [("X", [(60 : ℚ)])] "X" = some [(60 : ℚ)])
    ∧ [(60 : ℚ)] ≠ [] ∧ ∀ d ∈ [(60 : ℚ)], 0 < d := by
  have he : extractIdleDurations
      [⟨.num 0, .restart⟩,
       ⟨.num 0, .snapshot (some false) (some false) [⟨"W", true, "", "X"⟩]⟩,
       ⟨.num 100, .snapshot (some true) (some false) [⟨"W", true, "", "X"⟩]⟩,
       ⟨.num 160, .snapshot (some false) (some false) [⟨"W", true, "", "X"⟩]⟩,
       ⟨.num 200, .snapshot (some false) (some false) [⟨"W", true, "", "X"⟩]⟩]
      0 200 false [] = some [("X", [(60 : ℚ)])] := by
    norm_num [extractIdleDurations, extractState, sStep, sStepCore, sFlags,
      sProcessWindow, sClose, sOpen, sEndCmd, dappendDur, initSState,
      List.foldlM, dget, dinsert, cutoffOf,
      show ("W" : String) ≠ "" from by decide,
      show ("X" : String) ≠ "" from by decide]
  have hd : dget [("X", [(60 : ℚ)])] "X" = some [(60 : ℚ)] := by
    norm_num [dget]
  exact ⟨he, hd,
    C10_durations_positive _ 0 200 false [] _ he "X" [(60 : ℚ)] hd⟩

/-! ### C3 -/

/-- C3 counterexample: an idle episode spanning [2, 10] with query
window [0, 6] yields the clipped overlap 4 in
`IdleDurationsByCommand["X"]`, not the unclipped duration 8 that the
claim states. -/
theorem C3_counterexample :
    (extractIdleDurations
      [⟨.num 0, .restart⟩,
       ⟨.num 1, .snapshot (some false) (some false) [⟨"A", true, "", "X"⟩]⟩,
       ⟨.num 2, .snapshot (some true) (some false) [⟨"A", true, "", "X"⟩]⟩,
       ⟨.num 10, .snapshot (some false) (some false) [⟨"A", true, "", "X"⟩]⟩]
      0 6 false [] = some [("X", [(4 : ℚ)])])
    ∧ (10 : ℚ) - 2 = 8 ∧ (4 : ℚ) ≠ 8 := by
  refine ⟨?_, by norm_num, by norm_num⟩
  norm_num [extractIdleDurations, extractState, sStep, sStepCore, sFlags,
    sProcessWindow, sClose, sOpen, sEndCmd, dappendDur, initSState,
    List.foldlM, dget, dinsert, cutoffOf,
    show ("A" : String) ≠ "" from by decide,
    show ("X" : String) ≠ "" from by decide]

/-- C3 (amended): when an idle episode of `extract_idle_durations` that
opened at `st` under command `c` closes at a record with timestamp `q`,
the value appended to the durations map is the CLIPPED window overlap
`min q t2 - max st t1` (not the unclipped duration), and it is appended
exactly when the episode intersects the query window, the clipped
overlap is positive, `includeSwitches` is enabled or the command focused
at close equals `c`, and the CLIPPED overlap is at least the command's
threshold; otherwise the map is unchanged. -/
theorem C3_close_appends_clipped_overlap
    (t1 t2 q : ℚ) (inc : Bool) (cut : List (String × ℚ)) (s : SState)
    (b : RecBody) (st : ℚ) (c : String) (nr ni nl : Bool)
    (hc : List (String × String)) (wn : List (String × SWin))
    (hf : sFlags s b = (nr, ni, nl, hc, wn))
    (hst : s.idle_start_ts = some st) (hcm : s.idle_cmd = some c)
    (hEnds : (!nr || nl || !ni) = true) :
    ((t1 ≤ q ∧ st ≤ t2) → 0 < min q t2 - max st t1 →
      (inc = true ∨ some c = sEndCmd nr ni nl wn) →
      cutoffOf cut (some c) ≤ min q t2 - max st t1 →
      (sStepCore t1 t2 inc cut s q b).durations =
        dappendDur s.durations c (min q t2 - max st t1))
    ∧ (¬((t1 ≤ q ∧ st ≤ t2) ∧ 0 < min q t2 - max st t1 ∧
        (inc = true ∨ some c = sEndCmd nr ni nl wn) ∧
        cutoffOf cut (some c) ≤ min q t2 - max st t1) →
      (sStepCore t1 t2 inc cut s q b).durations = s.durations) := by
  have hd : (sStepCore t1 t2 inc cut s q b).durations =
      (sClose t1 t2 inc cut q nr ni nl wn s.idle_start_ts s.idle_cmd
        s.durations).2.2 := by
    simp only [sStepCore, hf]
  rw [hd, hst, hcm]
  dsimp only [sClose]
  rw [if_pos hEnds]
  constructor
  · intro h1 h2 h3 h4
    rw [if_pos h1, if_pos h2]
    have hinc : (Option.isSome (some c) &&
        (inc || some c == sEndCmd nr ni nl wn)) = true := by
      rcases h3 with h3 | h3
      · simp [h3]
      · simp [← h3]
    rw [if_pos hinc]
    dsimp only
    rw [if_pos h4]
  · intro hnot
    by_cases h1 : t1 ≤ q ∧ st ≤ t2
    · rw [if_pos h1]
      by_cases h2 : 0 < min q t2 - max st t1
      · rw [if_pos h2]
        by_cases h3 : inc = true ∨ some c = sEndCmd nr ni nl wn
        · have hinc : (Option.isSome (some c) &&
              (inc || some c == sEndCmd nr ni nl wn)) = true := by
            rcases h3 with h3 | h3
            · simp [h3]
            · simp [← h3]
          rw [if_pos hinc]
          dsimp only
          by_cases h4 : cutoffOf cut (some c) ≤ min q t2 - max st t1
          · exact absurd ⟨h1, h2, h3, h4⟩ hnot
          · rw [if_neg h4]
        · have hinc : ¬(Option.isSome (some c) &&
              (inc || some c == sEndCmd nr ni nl wn)) = true := by
            simp only [Option.isSome_some, Bool.true_and, Bool.or_eq_true,
              beq_iff_eq]
            exact h3
          rw [if_neg hinc]
      · rw [if_neg h2]
    · rw [if_neg h1]

/-- C3 witness: the amended close theorem applied to a concrete open
episode (started at 2 under "X") closed by a same-command resume at 10
with window [0, 6]: the clipped overlap 4 is appended. -/
theorem C3_witness :
    ((sStepCore 0 6 false []
        ⟨[("A", "X")], [("A", ⟨true, "X"⟩)], true, true, false, some 2,
          some "X", []⟩ 10
        (.snapshot (some false) (some false) [⟨"A", true, "", "X"⟩])).durations
      = dappendDur [] "X" (min (10 : ℚ) 6 - max 2 0))
    ∧ (0 : ℚ) < min (10 : ℚ) 6 - max 2 0 := by
  have hf : sFlags
      (⟨[("A", "X")], [("A", ⟨true, "X"⟩)], true, true, false, some 2,
        some "X", []⟩ : SState)
      (.snapshot (some false) (some false) [⟨"A", true, "", "X"⟩])
      = (true, false, false, [("A", "X")], [("A", ⟨true, "X"⟩)]) := by
    norm_num [sFlags, sProcessWindow, dget, dinsert,
      show ("A" : String) ≠ "" from by decide,
      show ("X" : String) ≠ "" from by decide]
  refine ⟨?_, by norm_num⟩
  refine (C3_close_appends_clipped_overlap 0 6 10 false [] _ _ 2 "X"
    true false false _ _ hf rfl rfl (by decide)).1
    ⟨by norm_num, by norm_num⟩ (by norm_num) ?_ (by norm_num [cutoffOf, dget])
  refine Or.inr ?_
  norm_num [sEndCmd, show ("X" : String) ≠ "" from by decide]

/-! ### Infrastructure for the idle-episode close analysis -/

theorem ival_nonneg (t1 t2 p q : ℚ) : 0 ≤ ival t1 t2 p q := by
  unfold ival
  split
  · exact le_refl 0
  · exact le_max_left 0 _

/-- In the running-idle state with an episode already open, step part 1
only accumulates the raw duration and the clipped overlap. -/
theorem attributeInterval_idle_open (t1 t2 q p st : ℚ) (s : AState)
    (h5 : s.prev_ts = some p) (hst : s.idle_start_ts = some st)
    (h2 : s.idle = true) (h3 : s.extension_running = true)
    (h4 : s.locked = false) :
    attributeInterval t1 t2 s q =
      { s with idle_duration := s.idle_duration + (q - p),
               idle_overlap := s.idle_overlap + ival t1 t2 p q } := by
  unfold attributeInterval
  rw [h5]
  by_cases hiv : 0 < ival t1 t2 p q
  · simp [h2, h3, h4, hst, hiv, h5]
  · have h0 : ival t1 t2 p q = 0 :=
      le_antisymm (not_lt.mp hiv) (ival_nonneg t1 t2 p q)
    simp [h2, h3, h4, hst, hiv, h0, h5]

theorem detectOpen_prevIdle_true (s : AState) (pW : List (String × Bool))
    (q : ℚ) : detectOpen s true pW q = s := by
  simp [detectOpen]

/-- The (activations, focus, idle) core of a stats entry; the metadata
back-fill changes only title/cmd, never the core. -/
def coreOf (e : Entry) : ℕ × ℚ × ℚ :=
  (e.activations, e.focus_seconds, e.idle_seconds)

theorem dget_dinsert_core (st : List (String × Entry)) (k h : String)
    (e e' : Entry) (hg : dget st k = some e) (hcore : coreOf e' = coreOf e) :
    (dget (dinsert st k e') h).map coreOf = (dget st h).map coreOf := by
  rw [dget_dinsert]
  by_cases hk : k = h
  · subst hk
    rw [if_pos rfl, hg]
    simp [hcore]
  · rw [if_neg hk]

theorem processWindow_core
    (acc : List (String × Bool) × List (String × String) ×
      List (String × String) × List (String × Entry)) (w : WindowInfo)
    (h : String) :
    (dget (processWindow acc w).2.2.2 h).map coreOf =
      (dget acc.2.2.2 h).map coreOf := by
  rcases acc with ⟨st, ht, hc, stats⟩
  dsimp only [processWindow]
  repeat' split
  all_goals try rfl
  all_goals try (exact dget_dinsert_core _ _ _ _ _ (by assumption) rfl)
  all_goals try (rename_i hq1 hcnd hq2
                 exact (dget_dinsert_core _ _ _ _ _ hq2 rfl).trans
                   (dget_dinsert_core _ _ _ _ _ hq1 rfl))
  all_goals simp_all [dget_dinsert]
  all_goals (split_ifs with hwh <;> simp_all [coreOf])
  all_goals (rename_i hv
             cases hv
             simp)

/-- The focus map built by a snapshot, and the fold components. -/
theorem processWindow_fold_core (ws : List WindowInfo)
    (st0 : List (String × Bool)) (ht0 hc0 : List (String × String))
    (stats0 : List (String × Entry)) (h : String) :
    (dget (ws.foldl processWindow (st0, ht0, hc0, stats0)).2.2.2 h).map coreOf
      = (dget stats0 h).map coreOf := by
  have := foldl_fixed processWindow
    (fun acc => (dget acc.2.2.2 h).map coreOf) ws (st0, ht0, hc0, stats0)
    (fun a c _ => processWindow_core a c h)
  simpa using this

theorem focusOf_of_core (st st' : List (String × Entry)) (h : String)
    (hcore : (dget st' h).map coreOf = (dget st h).map coreOf) :
    focusOf st' h = focusOf st h := by
  unfold focusOf
  rcases hg : dget st' h with _ | e <;> rcases hg2 : dget st h with _ | e2 <;>
    rw [hg, hg2] at hcore <;> simp at hcore <;> simp [coreOf] at *
  · exact hcore.2.1

theorem idleOf_of_core (st st' : List (String × Entry)) (h : String)
    (hcore : (dget st' h).map coreOf = (dget st h).map coreOf) :
    idleOf st' h = idleOf st h := by
  unfold idleOf
  rcases hg : dget st' h with _ | e <;> rcases hg2 : dget st h with _ | e2 <;>
    rw [hg, hg2] at hcore <;> simp at hcore <;> simp [coreOf] at *
  · exact hcore.2.2

theorem actOf_of_core (st st' : List (String × Entry)) (h : String)
    (hcore : (dget st' h).map coreOf = (dget st h).map coreOf) :
    actOf st' h = actOf st h := by
  unfold actOf
  rcases hg : dget st' h with _ | e <;> rcases hg2 : dget st h with _ | e2 <;>
    rw [hg, hg2] at hcore <;> simp at hcore <;> simp [coreOf] at *
  · exact hcore.1

/-- The state update never changes any entity's recorded focus
seconds. -/
theorem applyBody_focusOf (t1 t2 q : ℚ) (s : AState) (b : RecBody)
    (h : String) :
    focusOf (applyBody t1 t2 q s b).stats h = focusOf s.stats h := by
  cases b with
  | restart => rfl
  | stopped => rfl
  | other => rfl
  | snapshot idleF lockedF ws =>
    dsimp only [applyBody]
    rcases hfold : ws.foldl processWindow
        ([], s.hash_to_title, s.hash_to_cmd, s.stats) with ⟨st, ht, hc, stats⟩
    dsimp only
    have hcore : (dget stats h).map coreOf = (dget s.stats h).map coreOf := by
      have := processWindow_fold_core ws [] s.hash_to_title s.hash_to_cmd
        s.stats h
      rw [hfold] at this
      exact this
    have hbase : focusOf stats h = focusOf s.stats h :=
      focusOf_of_core _ _ _ hcore
    by_cases hq : t1 ≤ q ∧ q ≤ t2
    · rw [if_pos hq]
      have hfix := foldl_fixed
        (fun acc hf =>
          dmodify (ensure_entry ht hc acc hf.1) hf.1
            (fun e => { e with activations := e.activations + 1 }))
        (focusOf · h)
        (st.filter (fun hf => hf.2 && !((dget s.prev_windows hf.1).getD false)))
        stats
        (fun a c _ => by
          show focusOf (dmodify (ensure_entry ht hc a c.1) c.1
            (fun e => { e with activations := e.activations + 1 })) h
            = focusOf a h
          rw [focusOf_dmodify_pres _ _ _
            (fun e => { e with activations := e.activations + 1 })
            (fun e => rfl), focusOf_ensure])
      exact hfix.trans hbase
    · rw [if_neg hq]
      exact hbase

/-- The state update never changes any entity's recorded idle
seconds. -/
theorem applyBody_idleOf (t1 t2 q : ℚ) (s : AState) (b : RecBody)
    (h : String) :
    idleOf (applyBody t1 t2 q s b).stats h = idleOf s.stats h := by
  cases b with
  | restart => rfl
  | stopped => rfl
  | other => rfl
  | snapshot idleF lockedF ws =>
    dsimp only [applyBody]
    rcases hfold : ws.foldl processWindow
        ([], s.hash_to_title, s.hash_to_cmd, s.stats) with ⟨st, ht, hc, stats⟩
    dsimp only
    have hcore : (dget stats h).map coreOf = (dget s.stats h).map coreOf := by
      have := processWindow_fold_core ws [] s.hash_to_title s.hash_to_cmd
        s.stats h
      rw [hfold] at this
      exact this
    have hbase : idleOf stats h = idleOf s.stats h :=
      idleOf_of_core _ _ _ hcore
    by_cases hq : t1 ≤ q ∧ q ≤ t2
    · rw [if_pos hq]
      have hfix := foldl_fixed
        (fun acc hf =>
          dmodify (ensure_entry ht hc acc hf.1) hf.1
            (fun e => { e with activations := e.activations + 1 }))
        (idleOf · h)
        (st.filter (fun hf => hf.2 && !((dget s.prev_windows hf.1).getD false)))
        stats
        (fun a c _ => by
          show idleOf (dmodify (ensure_entry ht hc a c.1) c.1
            (fun e => { e with activations := e.activations + 1 })) h
            = idleOf a h
          rw [idleOf_dmodify_pres _ _ _
            (fun e => { e with activations := e.activations + 1 })
            (fun e => rfl), idleOf_ensure])
      exact hfix.trans hbase
    · rw [if_neg hq]
      exact hbase

/-- Full characterization of the idle-episode close (rawlog.py lines
259-284) when an episode is open and the close condition fires: the
episode is reclassified as focus time iff the command is known, the raw
duration is below the cutoff, AND the state entered at close is
running-active; otherwise the overlap goes to the idle total. -/
theorem detectClose_spec (cut : List (String × ℚ)) (u : AState) (st : ℚ)
    (hst : u.idle_start_ts = some st)
    (hcl : (!u.idle || !u.extension_running || u.locked) = true) :
    ((u.idle_cmd.isSome = true ∧ u.idle_duration < cutoffOf cut u.idle_cmd
        ∧ u.extension_running = true ∧ u.locked = false ∧ u.idle = false) →
      (detectClose cut u true).total_idle = u.total_idle
      ∧ (∀ h, focusOf (detectClose cut u true).stats h =
          focusOf u.stats h +
            (u.idle_focused_hashes.count h : ℚ) * u.idle_overlap)
      ∧ (∀ h, idleOf (detectClose cut u true).stats h = idleOf u.stats h))
    ∧ (¬(u.idle_cmd.isSome = true ∧ u.idle_duration < cutoffOf cut u.idle_cmd
        ∧ u.extension_running = true ∧ u.locked = false ∧ u.idle = false) →
      (detectClose cut u true).total_idle = u.total_idle + u.idle_overlap
      ∧ (∀ h, focusOf (detectClose cut u true).stats h = focusOf u.stats h)) := by
  have hmain : detectClose cut u true =
      { (match u.idle_start_ts with
         | none => u
         | some _ =>
           let cutoff := cutoffOf cut u.idle_cmd
           let treat := u.idle_cmd.isSome && decide (u.idle_duration < cutoff)
             && u.extension_running && !u.locked && !u.idle
           if treat then
             { u with stats := (attribute_focus u.hash_to_title u.hash_to_cmd
                 u.stats u.idle_focused_hashes u.idle_overlap) }
           else
             let post := focusedKeys u.prev_windows
             let shared := (u.idle_focused_hashes.filter
               (fun h => post.contains h)).dedup
             let stats := shared.foldl
               (fun acc h =>
                 dmodify (ensure_entry u.hash_to_title u.hash_to_cmd acc h) h
                   (fun e => { e with idle_seconds := e.idle_seconds + u.idle_overlap }))
               u.stats
             { u with total_idle := u.total_idle + u.idle_overlap,
                      stats := stats })
        with idle_start_ts := none, idle_cmd := none,
             idle_focused_hashes := [], idle_overlap := 0,
             idle_duration := 0 } := by
    unfold detectClose
    rw [if_pos (by simp [hcl])]
  rw [hmain, hst]
  dsimp only
  by_cases htreat : (u.idle_cmd.isSome && decide (u.idle_duration < cutoffOf cut u.idle_cmd)
      && u.extension_running && !u.locked && !u.idle) = true
  · rw [if_pos htreat]
    have hprop : u.idle_cmd.isSome = true
        ∧ u.idle_duration < cutoffOf cut u.idle_cmd
        ∧ u.extension_running = true ∧ u.locked = false ∧ u.idle = false := by
      simp only [Bool.and_eq_true, Bool.not_eq_true', decide_eq_true_iff] at htreat
      exact ⟨htreat.1.1.1.1, htreat.1.1.1.2, htreat.1.1.2, htreat.1.2, htreat.2⟩
    constructor
    · intro _
      refine ⟨rfl, ?_, ?_⟩
      · intro h
        exact focusOf_attribute_focus _ _ _ _ _ h
      · intro h
        exact idleOf_attribute_focus _ _ _ _ _ h
    · intro hn
      exact absurd hprop hn
  · rw [if_neg htreat]
    have hprop : ¬(u.idle_cmd.isSome = true
        ∧ u.idle_duration < cutoffOf cut u.idle_cmd
        ∧ u.extension_running = true ∧ u.locked = false ∧ u.idle = false) := by
      intro ⟨h1, h2, h3, h4, h5⟩
      exact htreat (by simp [h1, h2, h3, h4, h5])
    constructor
    · intro hc
      exact absurd hc hprop
    · intro _
      refine ⟨rfl, ?_⟩
      intro h
      exact foldl_fixed _ (focusOf · h) _ u.stats (fun a c _ => by
        show focusOf (dmodify (ensure_entry u.hash_to_title u.hash_to_cmd a c) c
          (fun e => { e with idle_seconds := e.idle_seconds + u.idle_overlap })) h
          = focusOf a h
        rw [focusOf_dmodify_pres _ _ _
          (fun e => { e with idle_seconds := e.idle_seconds + u.idle_overlap })
          (fun e => rfl), focusOf_ensure])

/-! ### C2 -/

/-- C2 (amended): when a record at `q` closes the idle episode that is
open in state `s` (previous event at `p`), the episode is reclassified
as focus time iff the command is known, the unclipped duration
`s.idle_duration + (q - p)` is strictly below the cutoff, AND the state
entered at the close is running-active (running, not locked, not idle) —
an episode closed by a stop or a lock is counted as idle even below the
cutoff.  When reclassified, each entity focused at episode start gains
the accumulated window overlap as focus seconds and no idle seconds;
otherwise the overlap is added to `Totals.idleSeconds` and no focus
seconds change. -/
theorem C2_close_reclassification
    (t1 t2 q p st : ℚ) (cut : List (String × ℚ)) (s : AState) (b : RecBody)
    (h5 : s.prev_ts = some p) (hst : s.idle_start_ts = some st)
    (h2 : s.idle = true) (h3 : s.extension_running = true)
    (h4 : s.locked = false)
    (hclose : ¬((applyBody t1 t2 q s b).extension_running = true
      ∧ (applyBody t1 t2 q s b).idle = true
      ∧ (applyBody t1 t2 q s b).locked = false)) :
    ((s.idle_cmd.isSome = true
        ∧ s.idle_duration + (q - p) < cutoffOf cut s.idle_cmd
        ∧ (applyBody t1 t2 q s b).extension_running = true
        ∧ (applyBody t1 t2 q s b).locked = false
        ∧ (applyBody t1 t2 q s b).idle = false) →
      (stepCore t1 t2 cut s q b).total_idle = s.total_idle
      ∧ (∀ h, focusOf (stepCore t1 t2 cut s q b).stats h =
          focusOf s.stats h + (s.idle_focused_hashes.count h : ℚ) *
            (s.idle_overlap + ival t1 t2 p q))
      ∧ (∀ h, idleOf (stepCore t1 t2 cut s q b).stats h = idleOf s.stats h))
    ∧ (¬(s.idle_cmd.isSome = true
        ∧ s.idle_duration + (q - p) < cutoffOf cut s.idle_cmd
        ∧ (applyBody t1 t2 q s b).extension_running = true
        ∧ (applyBody t1 t2 q s b).locked = false
        ∧ (applyBody t1 t2 q s b).idle = false) →
      (stepCore t1 t2 cut s q b).total_idle =
        s.total_idle + (s.idle_overlap + ival t1 t2 p q)
      ∧ (∀ h, focusOf (stepCore t1 t2 cut s q b).stats h =
          focusOf s.stats h)) := by
  have hs1 : attributeInterval t1 t2 s q =
      { s with idle_duration := s.idle_duration + (q - p),
               idle_overlap := s.idle_overlap + ival t1 t2 p q } :=
    attributeInterval_idle_open t1 t2 q p st s h5 hst h2 h3 h4
  set u := applyBody t1 t2 q (attributeInterval t1 t2 s q) b with hu
  have hust : u.idle_start_ts = some st := by
    rw [hu, applyBody_idle_start_ts, hs1]
    exact hst
  have hucmd : u.idle_cmd = s.idle_cmd := by
    rw [hu, applyBody_idle_cmd, hs1]
  have huhash : u.idle_focused_hashes = s.idle_focused_hashes := by
    rw [hu, applyBody_idle_focused_hashes, hs1]
  have huov : u.idle_overlap = s.idle_overlap + ival t1 t2 p q := by
    rw [hu, applyBody_idle_overlap, hs1]
  have hud : u.idle_duration = s.idle_duration + (q - p) := by
    rw [hu, applyBody_idle_duration, hs1]
  have huti : u.total_idle = s.total_idle := by
    rw [hu, applyBody_total_idle, hs1]
  have hufoc : ∀ h, focusOf u.stats h = focusOf s.stats h := fun h => by
    rw [hu, applyBody_focusOf, hs1]
  have huidl : ∀ h, idleOf u.stats h = idleOf s.stats h := fun h => by
    rw [hu, applyBody_idleOf, hs1]
  have hui : u.idle = (applyBody t1 t2 q s b).idle := by
    rw [hu]
    exact applyBody_idle_only _ _ _ _ _ _ (attributeInterval_idle t1 t2 q s)
  have hur : u.extension_running = (applyBody t1 t2 q s b).extension_running := by
    rw [hu]
    exact applyBody_running_only _ _ _ _ _ _
      (attributeInterval_extension_running t1 t2 q s)
  have hul : u.locked = (applyBody t1 t2 q s b).locked := by
    rw [hu]
    exact applyBody_locked_only _ _ _ _ _ _
      (attributeInterval_locked t1 t2 q s)
  have hcl : (!u.idle || !u.extension_running || u.locked) = true := by
    rw [hui, hur, hul]
    rcases hb1 : (applyBody t1 t2 q s b).idle <;>
      rcases hb2 : (applyBody t1 t2 q s b).extension_running <;>
      rcases hb3 : (applyBody t1 t2 q s b).locked <;> simp_all
  have hstep : stepCore t1 t2 cut s q b =
      { detectClose cut u true with prev_ts := some q } := by
    simp only [stepCore]
    rw [h2, detectOpen_prevIdle_true, ← hu]
  obtain ⟨hA, hB⟩ := detectClose_spec cut u st hust hcl
  constructor
  · rintro ⟨c1, c2, c3, c4, c5⟩
    obtain ⟨ht1, ht2, ht3⟩ := hA
      ⟨by rw [hucmd]; exact c1, by rw [hud, hucmd]; exact c2,
       by rw [hur]; exact c3, by rw [hul]; exact c4, by rw [hui]; exact c5⟩
    refine ⟨?_, ?_, ?_⟩
    · rw [hstep]
      exact ht1.trans huti
    · intro h
      rw [hstep]
      have hres := ht2 h
      rw [hufoc h, huhash, huov] at hres
      exact hres
    · intro h
      rw [hstep]
      have hres := ht3 h
      rw [huidl h] at hres
      exact hres
  · intro hn
    have hn' : ¬(u.idle_cmd.isSome = true
        ∧ u.idle_duration < cutoffOf cut u.idle_cmd
        ∧ u.extension_running = true ∧ u.locked = false
        ∧ u.idle = false) := by
      rintro ⟨c1, c2, c3, c4, c5⟩
      refine hn ⟨?_, ?_, ?_, ?_, ?_⟩
      · rw [← hucmd]; exact c1
      · rw [← hud, ← hucmd]; exact c2
      · rw [← hur]; exact c3
      · rw [← hul]; exact c4
      · rw [← hui]; exact c5
    obtain ⟨ht1, ht2⟩ := hB hn'
    refine ⟨?_, ?_⟩
    · rw [hstep]
      have hres := ht1
      rw [huti, huov] at hres
      exact hres
    · intro h
      rw [hstep]
      have hres := ht2 h
      rw [hufoc h] at hres
      exact hres

set_option maxHeartbeats 2000000 in
/-- C2 counterexample: an idle episode (cmd "X", unclipped duration 3,
threshold 100) closed by a `stopped` event is NOT reclassified even
though 3 < 100: the overlap lands in `Totals.idleSeconds` and the
focused entity gains no focus time, contradicting the claim that the
decision ignores how the episode closed. -/
theorem C2_counterexample :
    ((analyze
      [⟨.num 0, .restart⟩,
       ⟨.num 1, .snapshot (some false) (some false) [⟨"A", true, "", "X"⟩]⟩,
       ⟨.num 2, .snapshot (some true) (some false) [⟨"A", true, "", "X"⟩]⟩,
       ⟨.num 5, .stopped⟩] 0 100 [("X", 100)]).map
      (fun o => (o.total_idle, focusOf o.stats "A", idleOf o.stats "A"))
      = some (3, 1, 0))
    ∧ (3 : ℚ) < 100 := by
  refine ⟨?_, by norm_num⟩
  norm_num [analyze, analyzeState, stepA, stepCore, attributeInterval,
    applyBody, detectOpen, detectClose, ival, initAState, List.foldlM,
    firstFocusedCmd, focusedKeys, dget, dinsert, dmodify, ensure_entry,
    attribute_focus, processWindow, cutoffOf, mkOutput, focusOf, idleOf,
    Option.some_ne_none, Option.isSome_some,
    show ("A" : String) ≠ "" from by decide,
    show ("X" : String) ≠ "" from by decide]

/-- C2 witness: the amended theorem applied to a concrete open episode
(cmd "X", overlap 2, duration 2, previous event at 4) closed at 5 by an
active snapshot with threshold 100: it is reclassified, the focused
entity "A" gains the full overlap 3 and the idle total is untouched. -/
theorem C2_witness :
    (2 : ℚ) + (5 - 4) < 100
    ∧ (stepCore 0 100 [("X", 100)]
        ⟨[], [("A", "X")], [], some 4, [("A", true)], true, true, false,
          0, 0, 0, some 2, some "X", ["A"], 2, 2⟩ 5
        (.snapshot (some false) (some false) [])).total_idle = 0
    ∧ focusOf (stepCore 0 100 [("X", 100)]
        ⟨[], [("A", "X")], [], some 4, [("A", true)], true, true, false,
          0, 0, 0, some 2, some "X", ["A"], 2, 2⟩ 5
        (.snapshot (some false) (some false) [])).stats "A" = 3 := by
  have hid : (applyBody 0 100 5
      (⟨[], [("A", "X")], [], some 4, [("A", true)], true, true, false,
        0, 0, 0, some 2, some "X", ["A"], 2, 2⟩ : AState)
      (.snapshot (some false) (some false) [])).idle = false := by
    rw [applyBody_snapshot_idle]
    rfl
  have hrun : (applyBody 0 100 5
      (⟨[], [("A", "X")], [], some 4, [("A", true)], true, true, false,
        0, 0, 0, some 2, some "X", ["A"], 2, 2⟩ : AState)
      (.snapshot (some false) (some false) [])).extension_running = true := by
    rw [applyBody_snapshot_extension_running]
  have hlock : (applyBody 0 100 5
      (⟨[], [("A", "X")], [], some 4, [("A", true)], true, true, false,
        0, 0, 0, some 2, some "X", ["A"], 2, 2⟩ : AState)
      (.snapshot (some false) (some false) [])).locked = false := by
    rw [applyBody_snapshot_locked]
    rfl
  have h := (C2_close_reclassification 0 100 5 4 2 [("X", 100)]
    ⟨[], [("A", "X")], [], some 4, [("A", true)], true, true, false,
      0, 0, 0, some 2, some "X", ["A"], 2, 2⟩
    (.snapshot (some false) (some false) []) rfl rfl rfl rfl rfl
    (fun hcontra => by rw [hid] at hcontra; exact Bool.noConfusion hcontra.2.1)).1
    ⟨rfl, by norm_num [cutoffOf, dget], hrun, hlock, hid⟩
  refine ⟨by norm_num, h.1, (h.2.1 "A").trans ?_⟩
  norm_num [focusOf, dget, ival]

/-! ### C5 -/

theorem attributeInterval_not_idle_episode (t1 t2 q : ℚ) (s : AState)
    (hidle : s.idle = false) :
    (attributeInterval t1 t2 s q).idle_start_ts = s.idle_start_ts
    ∧ (attributeInterval t1 t2 s q).idle_cmd = s.idle_cmd
    ∧ (attributeInterval t1 t2 s q).idle_focused_hashes =
        s.idle_focused_hashes := by
  rcases hp : s.prev_ts with _ | p <;> simp only [attributeInterval, hp]
  · exact ⟨by trivial, by trivial, by trivial⟩
  repeat' split
  all_goals first
    | exact ⟨by trivial, by trivial, by trivial⟩
    | simp_all

/-- In the running-idle state with NO open episode, step part 1 opens
one lazily at the previous event's timestamp, with no command. -/
theorem attributeInterval_idle_lazy (t1 t2 q p : ℚ) (s : AState)
    (h5 : s.prev_ts = some p) (hst : s.idle_start_ts = none)
    (h2 : s.idle = true) (h3 : s.extension_running = true)
    (h4 : s.locked = false) :
    attributeInterval t1 t2 s q =
      { s with idle_start_ts := some p, idle_cmd := none,
               idle_focused_hashes := focusedKeys s.prev_windows,
               idle_duration := q - p,
               idle_overlap := ival t1 t2 p q } := by
  unfold attributeInterval
  rw [h5]
  by_cases hiv : 0 < ival t1 t2 p q
  · simp [h2, h3, h4, hst, hiv, h5]
  · have h0 : ival t1 t2 p q = 0 :=
      le_antisymm (not_lt.mp hiv) (ival_nonneg t1 t2 p q)
    simp [h2, h3, h4, hst, hiv, h0, h5]

theorem detectClose_prevIdle_false (cut : List (String × ℚ)) (s : AState) :
    detectClose cut s false = s := by
  simp [detectClose]

theorem detectClose_runningIdle (cut : List (String × ℚ)) (s : AState)
    (pI : Bool) (hI : s.idle = true) (hR : s.extension_running = true)
    (hL : s.locked = false) : detectClose cut s pI = s := by
  unfold detectClose
  rw [if_neg]
  simp [hI, hR, hL]

/-- C5 (amended): an idle episode opens EAGERLY (at the event's own
timestamp, recording the pre-transition focus set and the first known
focused command) exactly when the idle FLAG transitions false→true into
a running, unlocked state; if instead the conjunction
running ∧ idle ∧ ¬locked becomes true while the idle flag was already
true (e.g. an unlock while idle), no episode opens at that event — it is
instead opened lazily at the next interval attribution, back-dated to
the previous event's timestamp, with NO command and the post-transition
focus set. -/
theorem C5_episode_open_characterization
    (t1 t2 q : ℚ) (cut : List (String × ℚ)) (s : AState) (b : RecBody) :
    (s.idle = false → s.idle_start_ts = none →
      (((stepCore t1 t2 cut s q b).idle_start_ts = some q) ↔
        ((stepCore t1 t2 cut s q b).extension_running = true
          ∧ (stepCore t1 t2 cut s q b).idle = true
          ∧ (stepCore t1 t2 cut s q b).locked = false))
      ∧ ((stepCore t1 t2 cut s q b).idle_start_ts = some q →
          (stepCore t1 t2 cut s q b).idle_cmd =
            firstFocusedCmd (stepCore t1 t2 cut s q b).hash_to_cmd
              s.prev_windows
          ∧ (stepCore t1 t2 cut s q b).idle_focused_hashes =
              focusedKeys s.prev_windows))
    ∧ (∀ p, s.idle = true → s.extension_running = true → s.locked = false →
        s.idle_start_ts = none → s.prev_ts = some p →
        (stepCore t1 t2 cut s q b).idle = true →
        (stepCore t1 t2 cut s q b).extension_running = true →
        (stepCore t1 t2 cut s q b).locked = false →
        (stepCore t1 t2 cut s q b).idle_start_ts = some p
        ∧ (stepCore t1 t2 cut s q b).idle_cmd = none
        ∧ (stepCore t1 t2 cut s q b).idle_focused_hashes =
            focusedKeys s.prev_windows) := by
  constructor
  · intro hidle hst
    have hstep : stepCore t1 t2 cut s q b =
        { detectOpen (applyBody t1 t2 q (attributeInterval t1 t2 s q) b)
            false s.prev_windows q with prev_ts := some q } := by
      simp only [stepCore]
      rw [hidle, detectClose_prevIdle_false]
    set s2 := applyBody t1 t2 q (attributeInterval t1 t2 s q) b with hs2
    have hpres := attributeInterval_not_idle_episode t1 t2 q s hidle
    have hs2start : s2.idle_start_ts = none := by
      rw [hs2, applyBody_idle_start_ts, hpres.1]
      exact hst
    have hs2i : (stepCore t1 t2 cut s q b).idle = s2.idle := by
      rw [hstep]
      exact (detectOpen_idle _ _ _ _)
    have hs2r : (stepCore t1 t2 cut s q b).extension_running =
        s2.extension_running := by
      rw [hstep]
      exact (detectOpen_extension_running _ _ _ _)
    have hs2l : (stepCore t1 t2 cut s q b).locked = s2.locked := by
      rw [hstep]
      exact (detectOpen_locked _ _ _ _)
    have hs2c : (stepCore t1 t2 cut s q b).hash_to_cmd = s2.hash_to_cmd := by
      rw [hstep]
      exact (detectOpen_hash_to_cmd _ _ _ _)
    by_cases hfire : (s2.idle && s2.extension_running && !s2.locked) = true
    · have hopen : detectOpen s2 false s.prev_windows q =
          { s2 with idle_start_ts := some q,
                    idle_cmd := firstFocusedCmd s2.hash_to_cmd s.prev_windows,
                    idle_focused_hashes := focusedKeys s.prev_windows,
                    idle_overlap := 0, idle_duration := 0 } := by
        unfold detectOpen
        rw [if_pos]
        simp only [Bool.not_false, Bool.true_and]
        simp only [Bool.and_eq_true] at hfire ⊢
        exact ⟨⟨hfire.1.1, hfire.1.2⟩, hfire.2⟩
      simp only [Bool.and_eq_true, Bool.not_eq_true'] at hfire
      constructor
      · constructor
        · intro _
          rw [hs2r, hs2i, hs2l]
          exact ⟨hfire.1.2, hfire.1.1, hfire.2⟩
        · intro _
          rw [hstep, hopen]
      · intro _
        rw [hs2c, hstep, hopen]
        exact ⟨rfl, rfl⟩
    · have hopen : detectOpen s2 false s.prev_windows q = s2 := by
        unfold detectOpen
        rw [if_neg]
        simp only [Bool.not_false, Bool.true_and]
        exact fun hcon => hfire hcon
      constructor
      · constructor
        · intro habs
          rw [hstep, hopen] at habs
          rw [hs2start] at habs
          cases habs
        · intro ⟨hr, hi, hl⟩
          rw [hs2r] at hr
          rw [hs2i] at hi
          rw [hs2l] at hl
          exact absurd (by rw [hi, hr, hl]; rfl) hfire
      · intro habs
        rw [hstep, hopen, hs2start] at habs
        cases habs
  · intro p h2 h3 h4 hst h5 hfi hfr hfl
    have hs1 : attributeInterval t1 t2 s q =
        { s with idle_start_ts := some p, idle_cmd := none,
                 idle_focused_hashes := focusedKeys s.prev_windows,
                 idle_duration := q - p,
                 idle_overlap := ival t1 t2 p q } :=
      attributeInterval_idle_lazy t1 t2 q p s h5 hst h2 h3 h4
    set s2 := applyBody t1 t2 q (attributeInterval t1 t2 s q) b with hs2
    have hs2i : s2.idle = (stepCore t1 t2 cut s q b).idle := by
      rw [stepCore_idle, hs2]
      exact applyBody_idle_only _ _ _ _ _ _ (attributeInterval_idle t1 t2 q s)
    have hs2r : s2.extension_running =
        (stepCore t1 t2 cut s q b).extension_running := by
      rw [stepCore_extension_running, hs2]
      exact applyBody_running_only _ _ _ _ _ _
        (attributeInterval_extension_running t1 t2 q s)
    have hs2l : s2.locked = (stepCore t1 t2 cut s q b).locked := by
      rw [stepCore_locked, hs2]
      exact applyBody_locked_only _ _ _ _ _ _
        (attributeInterval_locked t1 t2 q s)
    have hstep : stepCore t1 t2 cut s q b = { s2 with prev_ts := some q } := by
      simp only [stepCore]
      rw [h2, detectOpen_prevIdle_true, ← hs2,
        detectClose_runningIdle cut s2 true (hs2i.trans hfi)
          (hs2r.trans hfr) (hs2l.trans hfl)]
    rw [hstep]
    refine ⟨?_, ?_, ?_⟩
    · show s2.idle_start_ts = some p
      rw [hs2, applyBody_idle_start_ts, hs1]
    · show s2.idle_cmd = none
      rw [hs2, applyBody_idle_cmd, hs1]
    · show s2.idle_focused_hashes = focusedKeys s.prev_windows
      rw [hs2, applyBody_idle_focused_hashes, hs1]

set_option maxHeartbeats 2000000 in
/-- C5 counterexample: at ts 2 the conjunction running ∧ idle ∧ ¬locked
becomes true (it was false at ts 1 only because the machine was locked),
the focused entity "A" has known cmd "X", yet NO episode is open after
that event (`idle_start_ts = none`, `idle_cmd = none`) — the claim that
an episode opens at exactly that instant with that cmd is false. -/
theorem C5_counterexample :
    ((analyzeState
      [⟨.num 0, .restart⟩,
       ⟨.num 1, .snapshot (some true) (some true) [⟨"A", true, "", "X"⟩]⟩]
      0 100 []).map
      (fun s => (s.idle_start_ts, s.extension_running && s.idle && !s.locked))
      = some (none, false))
    ∧ ((analyzeState
      [⟨.num 0, .restart⟩,
       ⟨.num 1, .snapshot (some true) (some true) [⟨"A", true, "", "X"⟩]⟩,
       ⟨.num 2, .snapshot (some true) (some false) [⟨"A", true, "", "X"⟩]⟩]
      0 100 []).map
      (fun s => (s.idle_start_ts, s.idle_cmd,
        s.extension_running && s.idle && !s.locked))
      = some (none, none, true)) := by
  constructor <;>
    norm_num [analyzeState, stepA, stepCore, attributeInterval, applyBody,
      detectOpen, detectClose, ival, initAState, List.foldlM,
      firstFocusedCmd, focusedKeys, dget, dinsert, dmodify, ensure_entry,
      attribute_focus, processWindow, cutoffOf,
      Option.some_ne_none, Option.isSome_some,
      show ("A" : String) ≠ "" from by decide,
      show ("X" : String) ≠ "" from by decide]

/-- C5 witness: the eager-open characterization applied to a concrete
active state receiving an idle snapshot: the episode opens at the
event's timestamp with the pre-transition focus set. -/
theorem C5_witness :
    ((⟨[], [("A", "X")], [], some 0, [("A", true)], true, false, false,
        0, 0, 0, none, none, [], 0, 0⟩ : AState).idle = false)
    ∧ ((stepCore 0 10 []
        ⟨[], [("A", "X")], [], some 0, [("A", true)], true, false, false,
          0, 0, 0, none, none, [], 0, 0⟩ 1
        (.snapshot (some true) (some false) [⟨"A", true, "", "X"⟩])).idle_start_ts
        = some 1)
    ∧ ((stepCore 0 10 []
        ⟨[], [("A", "X")], [], some 0, [("A", true)], true, false, false,
          0, 0, 0, none, none, [], 0, 0⟩ 1
        (.snapshot (some true) (some false) [⟨"A", true, "", "X"⟩])).idle_focused_hashes
        = focusedKeys [("A", true)]) := by
  have h := (C5_episode_open_characterization 0 10 1 []
    ⟨[], [("A", "X")], [], some 0, [("A", true)], true, false, false,
      0, 0, 0, none, none, [], 0, 0⟩
    (.snapshot (some true) (some false) [⟨"A", true, "", "X"⟩])).1 rfl rfl
  have hi : (stepCore 0 10 []
      ⟨[], [("A", "X")], [], some 0, [("A", true)], true, false, false,
        0, 0, 0, none, none, [], 0, 0⟩ 1
      (.snapshot (some true) (some false) [⟨"A", true, "", "X"⟩])).idle
      = true := by
    rw [stepCore_idle, applyBody_snapshot_idle]
    rfl
  have hr : (stepCore 0 10 []
      ⟨[], [("A", "X")], [], some 0, [("A", true)], true, false, false,
        0, 0, 0, none, none, [], 0, 0⟩ 1
      (.snapshot (some true) (some false) [⟨"A", true, "", "X"⟩])).extension_running
      = true := by
    rw [stepCore_extension_running, applyBody_snapshot_extension_running]
  have hl : (stepCore 0 10 []
      ⟨[], [("A", "X")], [], some 0, [("A", true)], true, false, false,
        0, 0, 0, none, none, [], 0, 0⟩ 1
      (.snapshot (some true) (some false) [⟨"A", true, "", "X"⟩])).locked
      = false := by
    rw [stepCore_locked, applyBody_snapshot_locked]
    rfl
  have hopen := h.1.mpr ⟨hr, hi, hl⟩
  exact ⟨rfl, hopen, (h.2 hopen).2⟩

/-! ### C9 -/

/-- Reachability invariant: an idle episode is open only while the
collector state is running-idle-unlocked. -/
def EpisodeInv (s : AState) : Prop :=
  s.idle_start_ts.isSome = true →
    s.extension_running = true ∧ s.idle = true ∧ s.locked = false

theorem detectClose_cases (cut : List (String × ℚ)) (u : AState)
    (pI : Bool) :
    (detectClose cut u pI).idle_start_ts = none
    ∨ (detectClose cut u pI = u
       ∧ (pI = true →
          u.idle = true ∧ u.extension_running = true ∧ u.locked = false)) := by
  unfold detectClose
  split
  · left
    rfl
  · right
    refine ⟨rfl, fun hpI => ?_⟩
    rename_i hcond
    rw [hpI] at hcond
    simp only [Bool.true_and, Bool.or_eq_true, Bool.not_eq_true'] at hcond
    push_neg at hcond
    exact ⟨by simpa using hcond.1.1, by simpa using hcond.1.2,
      by simpa using hcond.2⟩

theorem detectOpen_cases (s : AState) (pI : Bool)
    (pW : List (String × Bool)) (q : ℚ) :
    detectOpen s pI pW q = s
    ∨ (s.idle = true ∧ s.extension_running = true ∧ s.locked = false
       ∧ pI = false) := by
  unfold detectOpen
  split
  · right
    rename_i hcond
    simp only [Bool.and_eq_true, Bool.not_eq_true'] at hcond
    exact ⟨hcond.1.1.2, hcond.1.2, hcond.2, hcond.1.1.1⟩
  · left
    rfl

theorem episodeInv_stepCore (t1 t2 q : ℚ) (cut : List (String × ℚ))
    (s : AState) (b : RecBody) (hs : EpisodeInv s) :
    EpisodeInv (stepCore t1 t2 cut s q b) := by
  intro hsome
  set s2 := applyBody t1 t2 q (attributeInterval t1 t2 s q) b with hs2
  set s3 := detectOpen s2 s.idle s.prev_windows q with hs3
  have hfin : stepCore t1 t2 cut s q b =
      { detectClose cut s3 s.idle with prev_ts := some q } := by
    simp only [stepCore, hs2, hs3]
  have hflags : (stepCore t1 t2 cut s q b).extension_running =
        (detectClose cut s3 s.idle).extension_running
      ∧ (stepCore t1 t2 cut s q b).idle = (detectClose cut s3 s.idle).idle
      ∧ (stepCore t1 t2 cut s q b).locked =
        (detectClose cut s3 s.idle).locked
      ∧ (stepCore t1 t2 cut s q b).idle_start_ts =
        (detectClose cut s3 s.idle).idle_start_ts := by
    rw [hfin]
    exact ⟨rfl, rfl, rfl, rfl⟩
  rcases detectClose_cases cut s3 s.idle with hnone | ⟨hid, himp⟩
  · rw [hflags.2.2.2, hnone] at hsome
    cases hsome
  · rw [hflags.1, hflags.2.1, hflags.2.2.1, hid]
    have hs3flags : (s3.extension_running = s2.extension_running)
        ∧ (s3.idle = s2.idle) ∧ (s3.locked = s2.locked) := by
      rw [hs3]
      exact ⟨detectOpen_extension_running _ _ _ _,
        detectOpen_idle _ _ _ _, detectOpen_locked _ _ _ _⟩
    rcases hidle : s.idle with _ | _
    · -- the idle flag was false: any open episode in s3 came from the
      -- eager open, whose fire condition implies the flags; otherwise
      -- the start is inherited and the invariant on s applies.
      rcases detectOpen_cases s2 s.idle s.prev_windows q with hol | hofl
      · have hstart : s3.idle_start_ts = s.idle_start_ts := by
          rw [hs3, hol, hs2, applyBody_idle_start_ts,
            (attributeInterval_not_idle_episode t1 t2 q s hidle).1]
        rw [hflags.2.2.2, hid, hstart] at hsome
        have := hs hsome
        rw [hidle] at this
        cases this.2.1
      · rw [hidle] at hofl
        rw [hs3flags.1, hs3flags.2.1, hs3flags.2.2]
        exact ⟨hofl.2.1, hofl.1, hofl.2.2.1⟩
    · have := himp hidle
      exact ⟨this.2.1, this.1, this.2.2⟩

theorem episodeInv_analyzeState (es : List Rec) (t1 t2 : ℚ)
    (cut : List (String × ℚ)) (s : AState)
    (h : analyzeState es t1 t2 cut = some s) : EpisodeInv s := by
  unfold analyzeState at h
  suffices hgen : ∀ (es' : List Rec) (s0 : AState), EpisodeInv s0 →
      es'.foldlM (stepA t1 t2 cut) s0 = some s → EpisodeInv s by
    exact hgen es initAState (fun hc => by simp [initAState] at hc) h
  intro es'
  induction es' with
  | nil =>
    intro s0 h0 hf
    cases hf
    exact h0
  | cons r t ih =>
    intro s0 h0 hf
    rw [foldlM_cons_opt] at hf
    rcases hr : stepA t1 t2 cut s0 r with _ | s1
    · rw [hr] at hf; cases hf
    · rw [hr] at hf
      refine ih s1 ?_ hf
      rcases r with ⟨ts, b⟩
      rcases ts with _ | q | _
      · cases hr; exact h0
      · have : s1 = stepCore t1 t2 cut s0 q b := by
          simpa [stepA] using hr.symm
        subst this
        exact episodeInv_stepCore t1 t2 q cut s0 b h0
      · cases hr

theorem attributeInterval_stopped (t1 t2 q : ℚ) (s : AState)
    (hrun : s.extension_running = false) :
    attributeInterval t1 t2 s q =
      { s with total_stopped := s.total_stopped +
          (match s.prev_ts with
           | none => 0
           | some p => ival t1 t2 p q) } := by
  rcases hp : s.prev_ts with _ | p
  · simp only [attributeInterval, hp]
    simp
    rw [← hp]
  · simp only [attributeInterval, hp]
    by_cases hiv : 0 < ival t1 t2 p q
    · simp [hrun, hiv]
    · have h0 : ival t1 t2 p q = 0 :=
        le_antisymm (not_lt.mp hiv) (ival_nonneg t1 t2 p q)
      simp [hrun, hiv, h0]
      rw [← hp, ← hrun]

theorem detectClose_start_none (cut : List (String × ℚ)) (u : AState)
    (pI : Bool) (hst : u.idle_start_ts = none) :
    (detectClose cut u pI).total_idle = u.total_idle
    ∧ (detectClose cut u pI).total_locked = u.total_locked
    ∧ (detectClose cut u pI).total_stopped = u.total_stopped
    ∧ (detectClose cut u pI).stats = u.stats := by
  unfold detectClose
  split
  · rw [hst]
    exact ⟨rfl, rfl, rfl, rfl⟩
  · exact ⟨rfl, rfl, rfl, rfl⟩

/-- C9: while the collector is stopped, the interval up to the next
event (clipped to the query window) goes entirely to
`Totals.stoppedSeconds`; the idle and locked totals and every entity's
focus and idle seconds are unchanged by that step. -/
theorem C9_stopped_gap (es : List Rec) (t1 t2 q : ℚ)
    (cut : List (String × ℚ)) (s : AState) (b : RecBody)
    (hreach : analyzeState es t1 t2 cut = some s)
    (hrun : s.extension_running = false) :
    (stepCore t1 t2 cut s q b).total_stopped = s.total_stopped +
      (match s.prev_ts with
       | none => 0
       | some p => ival t1 t2 p q)
    ∧ (stepCore t1 t2 cut s q b).total_idle = s.total_idle
    ∧ (stepCore t1 t2 cut s q b).total_locked = s.total_locked
    ∧ (∀ h, focusOf (stepCore t1 t2 cut s q b).stats h = focusOf s.stats h)
    ∧ (∀ h, idleOf (stepCore t1 t2 cut s q b).stats h = idleOf s.stats h) := by
  have hinv := episodeInv_analyzeState es t1 t2 cut s hreach
  have hstart : s.idle_start_ts = none := by
    rcases hso : s.idle_start_ts with _ | x
    · rfl
    · have := hinv (by rw [hso]; rfl)
      rw [hrun] at this
      cases this.1
  have hs1 : attributeInterval t1 t2 s q =
      { s with total_stopped := s.total_stopped +
          (match s.prev_ts with
           | none => 0
           | some p => ival t1 t2 p q) } :=
    attributeInterval_stopped t1 t2 q s hrun
  set s2 := applyBody t1 t2 q (attributeInterval t1 t2 s q) b with hs2
  set s3 := detectOpen s2 s.idle s.prev_windows q with hs3
  have hfin : stepCore t1 t2 cut s q b =
      { detectClose cut s3 s.idle with prev_ts := some q } := by
    simp only [stepCore, hs2, hs3]
  have hs2stop : s2.total_stopped = s.total_stopped +
      (match s.prev_ts with
       | none => 0
       | some p => ival t1 t2 p q) := by
    rw [hs2, applyBody_total_stopped, hs1]
  have hs2idle : s2.total_idle = s.total_idle := by
    rw [hs2, applyBody_total_idle, hs1]
  have hs2lock : s2.total_locked = s.total_locked := by
    rw [hs2, applyBody_total_locked, hs1]
  have hs2foc : ∀ h, focusOf s2.stats h = focusOf s.stats h := fun h => by
    rw [hs2, applyBody_focusOf, hs1]
  have hs2idl : ∀ h, idleOf s2.stats h = idleOf s.stats h := fun h => by
    rw [hs2, applyBody_idleOf, hs1]
  have hs3tot : s3.total_idle = s2.total_idle
      ∧ s3.total_locked = s2.total_locked
      ∧ s3.total_stopped = s2.total_stopped
      ∧ s3.stats = s2.stats := by
    rw [hs3]
    exact ⟨detectOpen_total_idle _ _ _ _, detectOpen_total_locked _ _ _ _,
      detectOpen_total_stopped _ _ _ _, detectOpen_stats _ _ _ _⟩
  have hcl : (detectClose cut s3 s.idle).total_idle = s3.total_idle
      ∧ (detectClose cut s3 s.idle).total_locked = s3.total_locked
      ∧ (detectClose cut s3 s.idle).total_stopped = s3.total_stopped
      ∧ (detectClose cut s3 s.idle).stats = s3.stats := by
    rcases hidle : s.idle with _ | _
    · rw [detectClose_prevIdle_false]
      exact ⟨rfl, rfl, rfl, rfl⟩
    · rcases detectOpen_cases s2 s.idle s.prev_windows q with hol | hofl
      · have hst3 : s3.idle_start_ts = none := by
          rw [hs3, hol, hs2, applyBody_idle_start_ts, hs1]
          exact hstart
        exact detectClose_start_none cut s3 true hst3
      · rw [hidle] at hofl
        cases hofl.2.2.2
  rw [hfin]
  refine ⟨?_, ?_, ?_, ?_, ?_⟩
  · show (detectClose cut s3 s.idle).total_stopped = _
    rw [hcl.2.2.1, hs3tot.2.2.1, hs2stop]
  · show (detectClose cut s3 s.idle).total_idle = _
    rw [hcl.1, hs3tot.1, hs2idle]
  · show (detectClose cut s3 s.idle).total_locked = _
    rw [hcl.2.1, hs3tot.2.1, hs2lock]
  · intro h
    show focusOf (detectClose cut s3 s.idle).stats h = _
    rw [hcl.2.2.2, hs3tot.2.2.2, hs2foc h]
  · intro h
    show idleOf (detectClose cut s3 s.idle).stats h = _
    rw [hcl.2.2.2, hs3tot.2.2.2, hs2idl h]

/-- C9 witness: after `restart@0, stopped@1`, a `restart` at 51 with
window [0, 100] books the whole 50-second gap as stopped time and
nothing else changes. -/
theorem C9_witness :
    (analyzeState [⟨.num 0, .restart⟩, ⟨.num 1, .stopped⟩] 0 100 []
      = some ⟨[], [], [], some 1, [], false, false, false, 0, 0, 0,
          none, none, [], 0, 0⟩)
    ∧ ((⟨[], [], [], some 1, [], false, false, false, 0, 0, 0,
          none, none, [], 0, 0⟩ : AState).extension_running = false)
    ∧ (stepCore 0 100 []
        ⟨[], [], [], some 1, [], false, false, false, 0, 0, 0,
          none, none, [], 0, 0⟩ 51 .restart).total_stopped = 0 + ival 0 100 1 51
    ∧ (stepCore 0 100 []
        ⟨[], [], [], some 1, [], false, false, false, 0, 0, 0,
          none, none, [], 0, 0⟩ 51 .restart).total_idle = 0
    ∧ ival 0 100 1 51 = 50 := by
  have hreach : analyzeState [⟨.num 0, .restart⟩, ⟨.num 1, .stopped⟩] 0 100 []
      = some ⟨[], [], [], some 1, [], false, false, false, 0, 0, 0,
          none, none, [], 0, 0⟩ := by
    norm_num [analyzeState, stepA, stepCore, attributeInterval, applyBody,
      detectOpen, detectClose, ival, initAState, List.foldlM, focusedKeys,
      cutoffOf, Option.some_ne_none, attribute_focus]
  have h := C9_stopped_gap [⟨.num 0, .restart⟩, ⟨.num 1, .stopped⟩] 0 100 51
    [] ⟨[], [], [], some 1, [], false, false, false, 0, 0, 0,
        none, none, [], 0, 0⟩ .restart hreach rfl
  exact ⟨hreach, rfl, h.1, h.2.1, by norm_num [ival]⟩

/-! ### C8 -/

theorem foldl_invar {α γ : Type} (P : α → Prop) (f : α → γ → α)
    (l : List γ) (a : α) (hstep : ∀ a c, c ∈ l → P a → P (f a c))
    (ha : P a) : P (l.foldl f a) := by
  induction l generalizing a with
  | nil => exact ha
  | cons c t ih =>
    rw [List.foldl_cons]
    exact ih _ (fun a c hc => hstep a c (List.mem_cons_of_mem _ hc))
      (hstep a c (List.mem_cons_self _ _) ha)

/-- The C8 back-fill invariant: every stats entry's stored title/cmd is
exactly the learned metadata for its hash (or `""` if none learned
yet). -/
def MirrorStats (stats : List (String × Entry))
    (ht hc : List (String × String)) : Prop :=
  ∀ h e, dget stats h = some e →
    e.title = (dget ht h).getD "" ∧ e.cmd = (dget hc h).getD ""

theorem mirror_ensure (stats : List (String × Entry))
    (ht hc : List (String × String)) (k : String)
    (hm : MirrorStats stats ht hc) :
    MirrorStats (ensure_entry ht hc stats k) ht hc := by
  intro h e hg
  unfold ensure_entry at hg
  rcases hk : dget stats k with _ | e0 <;> rw [hk] at hg
  · rw [dget_dinsert] at hg
    by_cases hkh : k = h
    · rw [if_pos hkh] at hg
      cases hg
      subst hkh
      exact ⟨rfl, rfl⟩
    · rw [if_neg hkh] at hg
      exact hm h e hg
  · exact hm h e hg

theorem mirror_dmodify (stats : List (String × Entry))
    (ht hc : List (String × String)) (k : String) (f : Entry → Entry)
    (hf : ∀ e, (f e).title = e.title ∧ (f e).cmd = e.cmd)
    (hm : MirrorStats stats ht hc) :
    MirrorStats (dmodify stats k f) ht hc := by
  intro h e hg
  rw [dget_dmodify] at hg
  by_cases hkh : k = h
  · rw [if_pos hkh] at hg
    subst hkh
    rcases hk : dget stats k with _ | e0 <;> rw [hk] at hg
    · cases hg
    · simp at hg
      subst hg
      obtain ⟨h1, h2⟩ := hm k e0 hk
      exact ⟨(hf e0).1.trans h1, (hf e0).2.trans h2⟩
  · rw [if_neg hkh] at hg
    exact hm h e hg

theorem mirror_attribute_focus (stats : List (String × Entry))
    (ht hc : List (String × String)) (hs : List String) (iv : ℚ)
    (hm : MirrorStats stats ht hc) :
    MirrorStats (attribute_focus ht hc stats hs iv) ht hc := by
  unfold attribute_focus
  exact foldl_invar (MirrorStats · ht hc) _ hs stats
    (fun a c _ ha => mirror_dmodify _ _ _ _ _ (fun e => ⟨rfl, rfl⟩)
      (mirror_ensure _ _ _ _ ha)) hm

theorem mirror_modify_fold (stats : List (String × Entry))
    (ht hc : List (String × String)) (hs : List String)
    (f : Entry → Entry) (hf : ∀ e, (f e).title = e.title ∧ (f e).cmd = e.cmd)
    (hm : MirrorStats stats ht hc) :
    MirrorStats (hs.foldl
      (fun acc h => dmodify (ensure_entry ht hc acc h) h f) stats) ht hc := by
  exact foldl_invar (MirrorStats · ht hc) _ hs stats
    (fun a c _ ha => mirror_dmodify _ _ _ _ _ hf
      (mirror_ensure _ _ _ _ ha)) hm

theorem dget_dinsert_mono {β : Type} (m : List (String × β)) (k h : String)
    (x v : β) (hnew : dget m k = none) (hg : dget m h = some v) :
    dget (dinsert m k x) h = some v := by
  rw [dget_dinsert]
  by_cases hkh : k = h
  · subst hkh
    rw [hnew] at hg
    cases hg
  · rw [if_neg hkh]
    exact hg

theorem mirror_backfill_title (stats : List (String × Entry))
    (ht hc : List (String × String)) (k v : String)
    (hm : MirrorStats stats ht hc) (hnew : dget ht k = none) :
    MirrorStats (match dget stats k with
      | some e => dinsert stats k { e with title := v }
      | none => stats) (dinsert ht k v) hc := by
  split
  · rename_i e0 hk
    intro h e hg
    rw [dget_dinsert] at hg
    by_cases hkh : k = h
    · rw [if_pos hkh] at hg
      cases hg
      subst hkh
      obtain ⟨_, hcm⟩ := hm k e0 hk
      refine ⟨?_, hcm⟩
      rw [dget_dinsert, if_pos rfl]
      rfl
    · rw [if_neg hkh] at hg
      obtain ⟨hti, hcm⟩ := hm h e hg
      refine ⟨?_, hcm⟩
      rw [dget_dinsert, if_neg hkh]
      exact hti
  · rename_i hk
    intro h e hg
    by_cases hkh : k = h
    · subst hkh
      rw [hk] at hg
      cases hg
    · obtain ⟨hti, hcm⟩ := hm h e hg
      refine ⟨?_, hcm⟩
      rw [dget_dinsert, if_neg hkh]
      exact hti

theorem mirror_backfill_cmd (stats : List (String × Entry))
    (ht hc : List (String × String)) (k v : String)
    (hm : MirrorStats stats ht hc) (hnew : dget hc k = none) :
    MirrorStats (match dget stats k with
      | some e => dinsert stats k { e with cmd := v }
      | none => stats) ht (dinsert hc k v) := by
  split
  · rename_i e0 hk
    intro h e hg
    rw [dget_dinsert] at hg
    by_cases hkh : k = h
    · rw [if_pos hkh] at hg
      cases hg
      subst hkh
      obtain ⟨hti, _⟩ := hm k e0 hk
      refine ⟨hti, ?_⟩
      rw [dget_dinsert, if_pos rfl]
      rfl
    · rw [if_neg hkh] at hg
      obtain ⟨hti, hcm⟩ := hm h e hg
      refine ⟨hti, ?_⟩
      rw [dget_dinsert, if_neg hkh]
      exact hcm
  · rename_i hk
    intro h e hg
    by_cases hkh : k = h
    · subst hkh
      rw [hk] at hg
      cases hg
    · obtain ⟨hti, hcm⟩ := hm h e hg
      refine ⟨hti, ?_⟩
      rw [dget_dinsert, if_neg hkh]
      exact hcm

theorem mirror_processWindow
    (acc : List (String × Bool) × List (String × String) ×
      List (String × String) × List (String × Entry)) (w : WindowInfo)
    (hm : MirrorStats acc.2.2.2 acc.2.1 acc.2.2.1) :
    MirrorStats (processWindow acc w).2.2.2 (processWindow acc w).2.1
      (processWindow acc w).2.2.1 := by
  rcases acc with ⟨st, ht, hc, stats⟩
  dsimp only [processWindow] at hm ⊢
  by_cases hw : w.hash = ""
  · rw [if_pos hw]
    exact hm
  · rw [if_neg hw]
    dsimp only
    by_cases h1 : w.title ≠ "" ∧ dget ht w.hash = none
    · rw [if_pos h1]
      dsimp only
      have hm1 := mirror_backfill_title stats ht hc w.hash w.title hm h1.2
      by_cases h2 : w.cmd ≠ "" ∧ dget hc w.hash = none
      · rw [if_pos h2]
        dsimp only
        exact mirror_backfill_cmd _ _ _ w.hash w.cmd hm1 h2.2
      · rw [if_neg h2]
        exact hm1
    · rw [if_neg h1]
      dsimp only
      by_cases h2 : w.cmd ≠ "" ∧ dget hc w.hash = none
      · rw [if_pos h2]
        dsimp only
        exact mirror_backfill_cmd _ _ _ w.hash w.cmd hm h2.2
      · rw [if_neg h2]
        exact hm

theorem processWindow_meta_mono
    (acc : List (String × Bool) × List (String × String) ×
      List (String × String) × List (String × Entry)) (w : WindowInfo)
    (h v : String) :
    (dget acc.2.1 h = some v → dget (processWindow acc w).2.1 h = some v)
    ∧ (dget acc.2.2.1 h = some v →
        dget (processWindow acc w).2.2.1 h = some v) := by
  rcases acc with ⟨st, ht, hc, stats⟩
  dsimp only [processWindow]
  by_cases hw : w.hash = ""
  · rw [if_pos hw]
    exact ⟨id, id⟩
  · rw [if_neg hw]
    dsimp only
    by_cases h1 : w.title ≠ "" ∧ dget ht w.hash = none <;>
      by_cases h2 : w.cmd ≠ "" ∧ dget hc w.hash = none
    · rw [if_pos h1]
      dsimp only
      rw [if_pos h2]
      exact ⟨fun hg => dget_dinsert_mono _ _ _ _ _ h1.2 hg,
        fun hg => dget_dinsert_mono _ _ _ _ _ h2.2 hg⟩
    · rw [if_pos h1]
      dsimp only
      rw [if_neg h2]
      exact ⟨fun hg => dget_dinsert_mono _ _ _ _ _ h1.2 hg, id⟩
    · rw [if_neg h1]
      dsimp only
      rw [if_pos h2]
      exact ⟨id, fun hg => dget_dinsert_mono _ _ _ _ _ h2.2 hg⟩
    · rw [if_neg h1]
      dsimp only
      rw [if_neg h2]
      exact ⟨id, id⟩

theorem mirror_attributeInterval (t1 t2 q : ℚ) (s : AState)
    (hm : MirrorStats s.stats s.hash_to_title s.hash_to_cmd) :
    MirrorStats (attributeInterval t1 t2 s q).stats
      (attributeInterval t1 t2 s q).hash_to_title
      (attributeInterval t1 t2 s q).hash_to_cmd := by
  rcases hp : s.prev_ts with _ | p <;> simp only [attributeInterval, hp]
  · exact hm
  repeat' split
  all_goals first
    | exact hm
    | exact mirror_attribute_focus _ _ _ _ _ hm

theorem mirror_applyBody (t1 t2 q : ℚ) (s : AState) (b : RecBody)
    (hm : MirrorStats s.stats s.hash_to_title s.hash_to_cmd) :
    MirrorStats (applyBody t1 t2 q s b).stats
      (applyBody t1 t2 q s b).hash_to_title
      (applyBody t1 t2 q s b).hash_to_cmd := by
  cases b with
  | restart => exact hm
  | stopped => exact hm
  | other => exact hm
  | snapshot idleF lockedF ws =>
    dsimp only [applyBody]
    rcases hfold : ws.foldl processWindow
        ([], s.hash_to_title, s.hash_to_cmd, s.stats) with ⟨st, ht, hc, stats⟩
    dsimp only
    have hfm : MirrorStats stats ht hc := by
      have hinv := foldl_invar
        (fun acc => MirrorStats acc.2.2.2 acc.2.1 acc.2.2.1) processWindow
        ws ([], s.hash_to_title, s.hash_to_cmd, s.stats)
        (fun a c _ ha => mirror_processWindow a c ha) hm
      rw [hfold] at hinv
      exact hinv
    by_cases hq : t1 ≤ q ∧ q ≤ t2
    · rw [if_pos hq]
      exact foldl_invar (MirrorStats · ht hc) _ _ stats
        (fun a c _ ha => mirror_dmodify _ _ _ _ _ (fun e => ⟨rfl, rfl⟩)
          (mirror_ensure _ _ _ _ ha)) hfm
    · rw [if_neg hq]
      exact hfm

theorem mirror_detectOpen (s : AState) (pI : Bool)
    (pW : List (String × Bool)) (q : ℚ)
    (hm : MirrorStats s.stats s.hash_to_title s.hash_to_cmd) :
    MirrorStats (detectOpen s pI pW q).stats
      (detectOpen s pI pW q).hash_to_title
      (detectOpen s pI pW q).hash_to_cmd := by
  rw [detectOpen_stats, detectOpen_hash_to_title, detectOpen_hash_to_cmd]
  exact hm

theorem mirror_detectClose (cut : List (String × ℚ)) (s : AState)
    (pI : Bool) (hm : MirrorStats s.stats s.hash_to_title s.hash_to_cmd) :
    MirrorStats (detectClose cut s pI).stats
      (detectClose cut s pI).hash_to_title
      (detectClose cut s pI).hash_to_cmd := by
  rw [detectClose_hash_to_title, detectClose_hash_to_cmd]
  unfold detectClose
  dsimp only
  repeat' split
  all_goals first
    | exact hm
    | exact mirror_attribute_focus _ _ _ _ _ hm
    | exact foldl_invar (MirrorStats · s.hash_to_title s.hash_to_cmd) _ _
        s.stats (fun a c _ ha => mirror_dmodify _ _ _ _ _
          (fun e => ⟨rfl, rfl⟩) (mirror_ensure _ _ _ _ ha)) hm

theorem mirror_stepCore (t1 t2 q : ℚ) (cut : List (String × ℚ))
    (s : AState) (b : RecBody)
    (hm : MirrorStats s.stats s.hash_to_title s.hash_to_cmd) :
    MirrorStats (stepCore t1 t2 cut s q b).stats
      (stepCore t1 t2 cut s q b).hash_to_title
      (stepCore t1 t2 cut s q b).hash_to_cmd := by
  have h4 := mirror_detectClose cut
    (detectOpen (applyBody t1 t2 q (attributeInterval t1 t2 s q) b)
      s.idle s.prev_windows q) s.idle
    (mirror_detectOpen _ _ _ _
      (mirror_applyBody t1 t2 q _ b (mirror_attributeInterval t1 t2 q s hm)))
  simp only [stepCore]
  exact h4

theorem mirror_analyzeState (es : List Rec) (t1 t2 : ℚ)
    (cut : List (String × ℚ)) (s : AState)
    (h : analyzeState es t1 t2 cut = some s) :
    MirrorStats s.stats s.hash_to_title s.hash_to_cmd := by
  unfold analyzeState at h
  suffices hgen : ∀ (es' : List Rec) (s0 : AState),
      MirrorStats s0.stats s0.hash_to_title s0.hash_to_cmd →
      es'.foldlM (stepA t1 t2 cut) s0 = some s →
      MirrorStats s.stats s.hash_to_title s.hash_to_cmd by
    exact hgen es initAState (fun h e hg => by cases hg) h
  intro es'
  induction es' with
  | nil =>
    intro s0 h0 hf
    cases hf
    exact h0
  | cons r t ih =>
    intro s0 h0 hf
    rw [foldlM_cons_opt] at hf
    rcases hr : stepA t1 t2 cut s0 r with _ | s1
    · rw [hr] at hf; cases hf
    · rw [hr] at hf
      refine ih s1 ?_ hf
      rcases r with ⟨ts, b⟩
      rcases ts with _ | q | _
      · cases hr; exact h0
      · have hs1 : s1 = stepCore t1 t2 cut s0 q b := by
          simpa [stepA] using hr.symm
        subst hs1
        exact mirror_stepCore t1 t2 q cut s0 b h0
      · cases hr

theorem stepCore_meta_mono (t1 t2 q : ℚ) (cut : List (String × ℚ))
    (s : AState) (b : RecBody) (h v : String) :
    (dget s.hash_to_title h = some v →
      dget (stepCore t1 t2 cut s q b).hash_to_title h = some v)
    ∧ (dget s.hash_to_cmd h = some v →
      dget (stepCore t1 t2 cut s q b).hash_to_cmd h = some v) := by
  have hab : ∀ (u : AState),
      (dget u.hash_to_title h = some v →
        dget (applyBody t1 t2 q u b).hash_to_title h = some v)
      ∧ (dget u.hash_to_cmd h = some v →
        dget (applyBody t1 t2 q u b).hash_to_cmd h = some v) := by
    intro u
    cases b with
    | restart => exact ⟨id, id⟩
    | stopped => exact ⟨id, id⟩
    | other => exact ⟨id, id⟩
    | snapshot idleF lockedF ws =>
      dsimp only [applyBody]
      rcases hfold : ws.foldl processWindow
          ([], u.hash_to_title, u.hash_to_cmd, u.stats) with ⟨st, ht, hc, stats⟩
      dsimp only
      have hmono := foldl_invar
        (fun acc => (dget u.hash_to_title h = some v →
            dget acc.2.1 h = some v)
          ∧ (dget u.hash_to_cmd h = some v → dget acc.2.2.1 h = some v))
        processWindow ws ([], u.hash_to_title, u.hash_to_cmd, u.stats)
        (fun a c _ ha =>
          ⟨fun hg => (processWindow_meta_mono a c h v).1 (ha.1 hg),
           fun hg => (processWindow_meta_mono a c h v).2 (ha.2 hg)⟩)
        ⟨id, id⟩
      rw [hfold] at hmono
      exact ⟨hmono.1, hmono.2⟩
  have hai_t := attributeInterval_hash_to_title t1 t2 q s
  have hai_c := attributeInterval_hash_to_cmd t1 t2 q s
  have hfin : (stepCore t1 t2 cut s q b).hash_to_title =
      (applyBody t1 t2 q (attributeInterval t1 t2 s q) b).hash_to_title
      ∧ (stepCore t1 t2 cut s q b).hash_to_cmd =
      (applyBody t1 t2 q (attributeInterval t1 t2 s q) b).hash_to_cmd := by
    simp only [stepCore]
    rw [detectClose_hash_to_title, detectOpen_hash_to_title,
      detectClose_hash_to_cmd, detectOpen_hash_to_cmd]
    exact ⟨rfl, rfl⟩
  constructor
  · intro hg
    rw [hfin.1]
    exact (hab _).1 (by rw [hai_t]; exact hg)
  · intro hg
    rw [hfin.2]
    exact (hab _).2 (by rw [hai_c]; exact hg)

/-- C8: once a non-empty title or cmd is recorded for an entity in
`hash_to_title`/`hash_to_cmd`, no later event changes it; and at every
reachable state each stats entry's stored title/cmd equals exactly the
learned metadata of its hash (the entry is back-filled when the
metadata is learned and never diverges from it afterwards). -/
theorem C8_metadata_stability (es es2 : List Rec) (t1 t2 : ℚ)
    (cut : List (String × ℚ)) (s s' : AState)
    (h1 : analyzeState es t1 t2 cut = some s)
    (h2 : analyzeState (es ++ es2) t1 t2 cut = some s') :
    (∀ h v, dget s.hash_to_title h = some v →
      dget s'.hash_to_title h = some v)
    ∧ (∀ h v, dget s.hash_to_cmd h = some v →
      dget s'.hash_to_cmd h = some v)
    ∧ (∀ h e, dget s'.stats h = some e →
        e.title = (dget s'.hash_to_title h).getD ""
        ∧ e.cmd = (dget s'.hash_to_cmd h).getD "") := by
  have h2' : es2.foldlM (stepA t1 t2 cut) s = some s' := by
    unfold analyzeState at h1 h2
    rw [foldlM_append_opt, h1] at h2
    exact h2
  have hmono : ∀ (l : List Rec) (u u' : AState),
      l.foldlM (stepA t1 t2 cut) u = some u' →
      ∀ h v, (dget u.hash_to_title h = some v →
          dget u'.hash_to_title h = some v)
        ∧ (dget u.hash_to_cmd h = some v →
          dget u'.hash_to_cmd h = some v) := by
    intro l
    induction l with
    | nil =>
      intro u u' hf h v
      cases hf
      exact ⟨id, id⟩
    | cons r t ih =>
      intro u u' hf h v
      rw [foldlM_cons_opt] at hf
      rcases hr : stepA t1 t2 cut u r with _ | u1
      · rw [hr] at hf; cases hf
      · rw [hr] at hf
        rcases r with ⟨ts, b⟩
        rcases ts with _ | q | _
        · cases hr
          exact ih _ _ hf h v
        · have hu1 : u1 = stepCore t1 t2 cut u q b := by
            simpa [stepA] using hr.symm
          subst hu1
          refine ⟨fun hg => (ih _ _ hf h v).1
              ((stepCore_meta_mono t1 t2 q cut u b h v).1 hg),
            fun hg => (ih _ _ hf h v).2
              ((stepCore_meta_mono t1 t2 q cut u b h v).2 hg)⟩
        · cases hr
  refine ⟨fun h v hg => (hmono es2 s s' h2' h v).1 hg,
    fun h v hg => (hmono es2 s s' h2' h v).2 hg,
    mirror_analyzeState (es ++ es2) t1 t2 cut s' h2⟩

/-- C8 witness: metadata learned at ts 0 ("T1"/"X" for entity "A")
survives a later snapshot carrying different values ("T2"/"Y"), and the
stats entry mirrors the learned metadata. -/
theorem C8_witness :
    (analyzeState
      [⟨.num 0, .snapshot (some false) (some false) [⟨"A", true, "T1", "X"⟩]⟩]
      0 10 []
      = some ⟨[("A", "T1")], [("A", "X")], [("A", ⟨"T1", "X", 1, 0, 0⟩)],
          some 0, [("A", true)], true, false, false, 0, 0, 0, none, none,
          [], 0, 0⟩)
    ∧ (analyzeState
      ([⟨.num 0, .snapshot (some false) (some false) [⟨"A", true, "T1", "X"⟩]⟩]
        ++ [⟨.num 1, .snapshot (some false) (some false) [⟨"A", true, "T2", "Y"⟩]⟩])
      0 10 []
      = some ⟨[("A", "T1")], [("A", "X")], [("A", ⟨"T1", "X", 1, 1, 0⟩)],
          some 1, [("A", true)], true, false, false, 0, 0, 0, none, none,
          [], 0, 0⟩)
    ∧ dget ([("A", "T1")] : List (String × String)) "A" = some "T1"
    ∧ (⟨"T1", "X", 1, 1, 0⟩ : Entry).title =
        (dget ([("A", "T1")] : List (String × String)) "A").getD "" := by
  have hh1 : analyzeState
      [⟨.num 0, .snapshot (some false) (some false) [⟨"A", true, "T1", "X"⟩]⟩]
      0 10 []
      = some ⟨[("A", "T1")], [("A", "X")], [("A", ⟨"T1", "X", 1, 0, 0⟩)],
          some 0, [("A", true)], true, false, false, 0, 0, 0, none, none,
          [], 0, 0⟩ := by
    norm_num [analyzeState, stepA, stepCore, attributeInterval, applyBody,
      detectOpen, detectClose, ival, initAState, List.foldlM, firstFocusedCmd,
      focusedKeys, dget, dinsert, dmodify, ensure_entry, attribute_focus,
      processWindow, cutoffOf, Option.some_ne_none,
      show ("A" : String) ≠ "" from by decide,
      show ("T1" : String) ≠ "" from by decide,
      show ("X" : String) ≠ "" from by decide]
  have hh2 : analyzeState
      ([⟨.num 0, .snapshot (some false) (some false) [⟨"A", true, "T1", "X"⟩]⟩]
        ++ [⟨.num 1, .snapshot (some false) (some false) [⟨"A", true, "T2", "Y"⟩]⟩])
      0 10 []
      = some ⟨[("A", "T1")], [("A", "X")], [("A", ⟨"T1", "X", 1, 1, 0⟩)],
          some 1, [("A", true)], true, false, false, 0, 0, 0, none, none,
          [], 0, 0⟩ := by
    norm_num [analyzeState, stepA, stepCore, attributeInterval, applyBody,
      detectOpen, detectClose, ival, initAState, List.foldlM, firstFocusedCmd,
      focusedKeys, dget, dinsert, dmodify, ensure_entry, attribute_focus,
      processWindow, cutoffOf, Option.some_ne_none,
      show ("A" : String) ≠ "" from by decide,
      show ("T1" : String) ≠ "" from by decide,
      show ("T2" : String) ≠ "" from by decide,
      show ("X" : String) ≠ "" from by decide,
      show ("Y" : String) ≠ "" from by decide]
  have h := C8_metadata_stability _ _ 0 10 [] _ _ hh1 hh2
  refine ⟨hh1, hh2, h.1 "A" "T1" (by norm_num [dget]), ?_⟩
  exact (h.2.2 "A" ⟨"T1", "X", 1, 1, 0⟩ (by norm_num [dget])).1

/-! ### C7 -/

/-- The focus map a snapshot builds (last-wins per hash, insertion
order). -/
def snapMap (ws : List WindowInfo) : List (String × Bool) :=
  ws.foldl (fun m w => if w.hash = "" then m else dinsert m w.hash w.focused) []

/-- The focus-set machine of the specification: restart/stopped clear
it, a snapshot replaces it, other records leave it. -/
def specFocusSet (fs : List (String × Bool)) : RecBody → List (String × Bool)
  | .restart => []
  | .stopped => []
  | .snapshot _ _ ws => snapMap ws
  | .other => fs

/-- The number of snapshots inside the window at which `h` is focused
but was not focused in the previous focus set, per the claim's own
words. -/
def activationCount (t1 t2 : ℚ) (h : String) :
    List Rec → List (String × Bool) → ℕ
  | [], _ => 0
  | r :: es, fs =>
    match r.ts with
    | .absent => activationCount t1 t2 h es fs
    | .bad => 0
    | .num q =>
      (match r.body with
       | .snapshot _ _ ws =>
         if t1 ≤ q ∧ q ≤ t2 ∧ (dget (snapMap ws) h).getD false = true
             ∧ ¬((dget fs h).getD false = true) then 1 else 0
       | _ => 0)
      + activationCount t1 t2 h es (specFocusSet fs r.body)

/-- Unique keys of an association list. -/
def UKeys {β : Type} (m : List (String × β)) : Prop :=
  (m.map Prod.fst).Nodup

theorem dget_none_not_mem {β : Type} (m : List (String × β)) (k : String)
    (hg : dget m k = none) : k ∉ m.map Prod.fst := by
  induction m with
  | nil => simp
  | cons a t ih =>
    rcases a with ⟨k', v'⟩
    by_cases hk : k' = k
    · subst hk
      simp [dget] at hg
    · have hg' : dget t k = none := by simpa [dget, hk] using hg
      simp only [List.map_cons, List.mem_cons]
      rintro (h | h)
      · exact hk h.symm
      · exact ih hg' h

theorem dinsert_map_fst_none {β : Type} (m : List (String × β))
    (k : String) (v : β) (hg : dget m k = none) :
    (dinsert m k v).map Prod.fst = m.map Prod.fst ++ [k] := by
  induction m with
  | nil => simp [dinsert]
  | cons a t ih =>
    rcases a with ⟨k', v'⟩
    by_cases hk : k' = k
    · subst hk
      simp [dget] at hg
    · have hg' : dget t k = none := by simpa [dget, hk] using hg
      simp [dinsert, hk, ih hg']

theorem dinsert_map_fst_some {β : Type} (m : List (String × β))
    (k : String) (v x : β) (hg : dget m k = some x) :
    (dinsert m k v).map Prod.fst = m.map Prod.fst := by
  induction m with
  | nil => simp [dget] at hg
  | cons a t ih =>
    rcases a with ⟨k', v'⟩
    by_cases hk : k' = k
    · subst hk
      simp [dinsert]
    · have hg' : dget t k = some x := by simpa [dget, hk] using hg
      simp [dinsert, hk, ih hg']

theorem ukeys_dinsert {β : Type} (m : List (String × β)) (k : String)
    (v : β) (hu : UKeys m) : UKeys (dinsert m k v) := by
  unfold UKeys at hu ⊢
  rcases hg : dget m k with _ | x
  · rw [dinsert_map_fst_none m k v hg, List.nodup_append]
    exact ⟨hu, List.nodup_singleton k,
      by simpa [List.disjoint_singleton] using dget_none_not_mem m k hg⟩
  · rw [dinsert_map_fst_some m k v x hg]
    exact hu

theorem ukeys_snapMap (ws : List WindowInfo) : UKeys (snapMap ws) := by
  unfold snapMap
  exact foldl_invar UKeys _ ws []
    (fun a w _ ha => by
      by_cases hw : w.hash = ""
      · simpa [hw] using ha
      · simpa [hw] using ukeys_dinsert a w.hash w.focused ha)
    (by simp [UKeys])

theorem processWindow_fst
    (acc : List (String × Bool) × List (String × String) ×
      List (String × String) × List (String × Entry)) (w : WindowInfo) :
    (processWindow acc w).1 =
      if w.hash = "" then acc.1 else dinsert acc.1 w.hash w.focused := by
  rcases acc with ⟨st, ht, hc, stats⟩
  dsimp only [processWindow]
  repeat' split
  all_goals rfl

theorem foldl_processWindow_fst (ws : List WindowInfo) :
    ∀ (acc : List (String × Bool) × List (String × String) ×
      List (String × String) × List (String × Entry)),
    (ws.foldl processWindow acc).1 =
      ws.foldl (fun m w => if w.hash = "" then m else dinsert m w.hash w.focused)
        acc.1 := by
  induction ws with
  | nil => intro acc; rfl
  | cons w t ih =>
    intro acc
    rw [List.foldl_cons, List.foldl_cons, ih, processWindow_fst]

theorem count_keys_zero {β : Type} (l : List (String × β)) (h : String)
    (hnm : h ∉ l.map Prod.fst) : (l.map Prod.fst).count h = 0 :=
  List.count_eq_zero.mpr hnm

theorem filter_keys_subset {β : Type} (l : List (String × β))
    (p : String × β → Bool) (h : String)
    (hm : h ∈ (l.filter p).map Prod.fst) : h ∈ l.map Prod.fst := by
  simp only [List.mem_map] at hm ⊢
  obtain ⟨x, hx, hfst⟩ := hm
  exact ⟨x, List.mem_of_mem_filter hx, hfst⟩

theorem count_filter_focus (st prev : List (String × Bool)) (h : String)
    (hu : UKeys st) :
    ((st.filter
      (fun hf => hf.2 && !((dget prev hf.1).getD false))).map Prod.fst).count h
      = if (dget st h).getD false = true
          ∧ ¬((dget prev h).getD false = true) then 1 else 0 := by
  induction st with
  | nil =>
    simp [dget]
  | cons a t ih =>
    rcases a with ⟨k, f⟩
    have hu' : UKeys t := by
      unfold UKeys at hu ⊢
      exact (List.nodup_cons.mp hu).2
    have hknm : k ∉ t.map Prod.fst := by
      unfold UKeys at hu
      exact (List.nodup_cons.mp hu).1
    by_cases hk : k = h
    · subst hk
      have hzero : ((t.filter
          (fun hf => hf.2 && !((dget prev hf.1).getD false))).map
            Prod.fst).count k = 0 :=
        count_keys_zero _ _ (fun hm => hknm (filter_keys_subset _ _ _ hm))
      rcases hf : f with _ | _ <;>
        rcases hprev : (dget prev k).getD false with _ | _ <;>
          simp [List.filter_cons, hf, hprev, hzero, List.count_cons, dget]
    · have hgh : dget ((k, f) :: t) h = dget t h := by simp [dget, hk]
      rcases hfc : (f && !((dget prev k).getD false)) with _ | _ <;>
        simp only [List.filter_cons, hfc] <;>
          simp [hgh, ih hu', List.count_cons, hk]

theorem actOf_ensure_modify (ht hc : List (String × String))
    (st : List (String × Entry)) (k h : String) :
    actOf (dmodify (ensure_entry ht hc st k) k
        (fun e => { e with activations := e.activations + 1 })) h =
      actOf st h + (if k = h then 1 else 0) := by
  by_cases hk : k = h
  · subst hk
    unfold actOf
    rw [dget_dmodify, if_pos rfl]
    have h1 : actOf (ensure_entry ht hc st k) k = actOf st k :=
      actOf_ensure ht hc st k k
    rcases hg : dget (ensure_entry ht hc st k) k with _ | e
    · exact absurd hg
        (Option.isSome_iff_ne_none.mp (dget_ensure_isSome ht hc st k))
    · have he : e.activations = actOf st k := by
        unfold actOf at h1
        rw [hg] at h1
        simpa using h1
      simp [he, actOf]
  · rw [if_neg hk]
    unfold actOf
    rw [dget_dmodify, if_neg hk]
    have h2 := actOf_ensure ht hc st k h
    unfold actOf at h2
    rw [h2]
    simp

theorem actOf_activation_fold (l : List (String × Bool))
    (ht hc : List (String × String)) (stats : List (String × Entry))
    (h : String) :
    actOf (l.foldl (fun acc hf =>
        dmodify (ensure_entry ht hc acc hf.1) hf.1
          (fun e => { e with activations := e.activations + 1 })) stats) h
      = actOf stats h + (l.map Prod.fst).count h := by
  induction l generalizing stats with
  | nil => simp
  | cons a t ih =>
    rw [List.foldl_cons, ih, actOf_ensure_modify]
    simp only [List.map_cons, List.count_cons]
    by_cases hk : a.1 = h
    · simp [hk]
      omega
    · simp [hk]

/-- The activation increment performed by a record's state update. -/
def actInc (t1 t2 q : ℚ) (prevW : List (String × Bool)) (h : String) :
    RecBody → ℕ
  | .snapshot _ _ ws =>
    if t1 ≤ q ∧ q ≤ t2 ∧ (dget (snapMap ws) h).getD false = true
        ∧ ¬((dget prevW h).getD false = true) then 1 else 0
  | _ => 0

theorem actOf_applyBody (t1 t2 q : ℚ) (s : AState) (b : RecBody)
    (h : String) :
    actOf (applyBody t1 t2 q s b).stats h =
      actOf s.stats h + actInc t1 t2 q s.prev_windows h b := by
  cases b with
  | restart => simp [actInc, applyBody]
  | stopped => simp [actInc, applyBody]
  | other => simp [actInc, applyBody]
  | snapshot idleF lockedF ws =>
    dsimp only [applyBody]
    rcases hfold : ws.foldl processWindow
        ([], s.hash_to_title, s.hash_to_cmd, s.stats) with ⟨st, ht, hc, stats⟩
    dsimp only
    have hst : st = snapMap ws := by
      have := foldl_processWindow_fst ws
        ([], s.hash_to_title, s.hash_to_cmd, s.stats)
      rw [hfold] at this
      exact this
    have hbase : actOf stats h = actOf s.stats h := by
      have hcore := processWindow_fold_core ws [] s.hash_to_title
        s.hash_to_cmd s.stats h
      rw [hfold] at hcore
      exact actOf_of_core _ _ _ hcore
    by_cases hq : t1 ≤ q ∧ q ≤ t2
    · rw [if_pos hq]
      rw [actOf_activation_fold, hbase, hst,
        count_filter_focus _ _ _ (ukeys_snapMap ws)]
      simp only [actInc]
      by_cases hcond : (dget (snapMap ws) h).getD false = true
          ∧ ¬((dget s.prev_windows h).getD false = true)
      · rw [if_pos hcond, if_pos ⟨hq.1, hq.2, hcond.1, hcond.2⟩]
      · rw [if_neg hcond, if_neg (fun hcon => hcond ⟨hcon.2.2.1, hcon.2.2.2⟩)]
    · rw [if_neg hq]
      rw [hbase]
      simp only [actInc]
      rw [if_neg (fun hcon => hq ⟨hcon.1, hcon.2.1⟩)]
      simp

theorem actOf_attributeInterval (t1 t2 q : ℚ) (s : AState) (h : String) :
    actOf (attributeInterval t1 t2 s q).stats h = actOf s.stats h := by
  rcases hp : s.prev_ts with _ | p <;> simp only [attributeInterval, hp]
  repeat' split
  all_goals first
    | rfl
    | exact actOf_attribute_focus _ _ _ _ _ h

theorem actOf_detectClose (cut : List (String × ℚ)) (u : AState)
    (pI : Bool) (h : String) :
    actOf (detectClose cut u pI).stats h = actOf u.stats h := by
  unfold detectClose
  dsimp only
  repeat' split
  all_goals first
    | rfl
    | exact actOf_attribute_focus _ _ _ _ _ h
    | exact foldl_fixed _ (actOf · h) _ u.stats (fun a c _ => by
        show actOf (dmodify (ensure_entry u.hash_to_title u.hash_to_cmd a c) c
          (fun e => { e with idle_seconds := e.idle_seconds + u.idle_overlap })) h
          = actOf a h
        rw [actOf_dmodify_pres _ _ _
          (fun e => { e with idle_seconds := e.idle_seconds + u.idle_overlap })
          (fun e => rfl), actOf_ensure])

theorem actOf_stepCore (t1 t2 q : ℚ) (cut : List (String × ℚ))
    (s : AState) (b : RecBody) (h : String) :
    actOf (stepCore t1 t2 cut s q b).stats h =
      actOf s.stats h + actInc t1 t2 q s.prev_windows h b := by
  have h1 : actOf (stepCore t1 t2 cut s q b).stats h =
      actOf (applyBody t1 t2 q (attributeInterval t1 t2 s q) b).stats h := by
    simp only [stepCore]
    rw [actOf_detectClose]
    congr 1
    exact congrArg (fun x => x) (detectOpen_stats _ _ _ _)
  rw [h1, actOf_applyBody, actOf_attributeInterval,
    attributeInterval_prev_windows]

theorem stepCore_prev_windows (t1 t2 q : ℚ) (cut : List (String × ℚ))
    (s : AState) (b : RecBody) :
    (stepCore t1 t2 cut s q b).prev_windows =
      specFocusSet s.prev_windows b := by
  have h1 : (stepCore t1 t2 cut s q b).prev_windows =
      (applyBody t1 t2 q (attributeInterval t1 t2 s q) b).prev_windows := by
    simp only [stepCore]
    rw [detectClose_prev_windows, detectOpen_prev_windows]
  rw [h1]
  cases b with
  | restart => rfl
  | stopped => rfl
  | other =>
    show (attributeInterval t1 t2 s q).prev_windows = s.prev_windows
    exact attributeInterval_prev_windows t1 t2 q s
  | snapshot idleF lockedF ws =>
    dsimp only [applyBody]
    rcases hfold : ws.foldl processWindow
        ([], (attributeInterval t1 t2 s q).hash_to_title,
          (attributeInterval t1 t2 s q).hash_to_cmd,
          (attributeInterval t1 t2 s q).stats) with ⟨st, ht, hc, stats⟩
    dsimp only
    have hst : st = snapMap ws := by
      have hfst := foldl_processWindow_fst ws
        ([], (attributeInterval t1 t2 s q).hash_to_title,
          (attributeInterval t1 t2 s q).hash_to_cmd,
          (attributeInterval t1 t2 s q).stats)
      rw [hfold] at hfst
      exact hfst
    by_cases hq : t1 ≤ q ∧ q ≤ t2 <;> simp [hq, hst, specFocusSet]

/-- C7: an entity's final activations count equals the number of
snapshots inside `[t_start, t_end]` at which it is focused but was not
focused in the previous focus set (re-confirming focus never counts). -/
theorem C7_activations (es : List Rec) (t1 t2 : ℚ)
    (cut : List (String × ℚ)) (s : AState) (h : String)
    (hr : analyzeState es t1 t2 cut = some s) :
    actOf s.stats h = activationCount t1 t2 h es [] := by
  unfold analyzeState at hr
  suffices hgen : ∀ (l : List Rec) (s0 s1 : AState),
      l.foldlM (stepA t1 t2 cut) s0 = some s1 →
      actOf s1.stats h =
        actOf s0.stats h + activationCount t1 t2 h l s0.prev_windows by
    have hmain := hgen es initAState s hr
    simpa [initAState, actOf, dget] using hmain
  intro l
  induction l with
  | nil =>
    intro s0 s1 hf
    cases hf
    simp [activationCount]
  | cons r t ih =>
    intro s0 s1 hf
    rw [foldlM_cons_opt] at hf
    rcases hrstep : stepA t1 t2 cut s0 r with _ | u1
    · rw [hrstep] at hf; cases hf
    · rw [hrstep] at hf
      rcases r with ⟨ts, b⟩
      rcases ts with _ | q | _
      · cases hrstep
        rw [ih _ _ hf]
        rfl
      · have hu : u1 = stepCore t1 t2 cut s0 q b := by
          simpa [stepA] using hrstep.symm
        subst hu
        rw [ih _ _ hf, actOf_stepCore, stepCore_prev_windows]
        cases b <;> simp [activationCount, actInc, specFocusSet] <;> omega
      · cases hrstep

/-- C7 witness: a single in-window snapshot focusing "A" yields exactly
one activation, matching the specification count. -/
theorem C7_witness :
    (analyzeState
      [⟨.num 1, .snapshot (some false) (some false) [⟨"A", true, "", ""⟩]⟩]
      0 10 []
      = some ⟨[], [], [("A", ⟨"", "", 1, 0, 0⟩)], some 1, [("A", true)],
          true, false, false, 0, 0, 0, none, none, [], 0, 0⟩)
    ∧ actOf [("A", (⟨"", "", 1, 0, 0⟩ : Entry))] "A" =
        activationCount 0 10 "A"
          [⟨.num 1, .snapshot (some false) (some false) [⟨"A", true, "", ""⟩]⟩]
          []
    ∧ activationCount 0 10 "A"
        [⟨.num 1, .snapshot (some false) (some false) [⟨"A", true, "", ""⟩]⟩]
        [] = 1 := by
  have hreach : analyzeState
      [⟨.num 1, .snapshot (some false) (some false) [⟨"A", true, "", ""⟩]⟩]
      0 10 []
      = some ⟨[], [], [("A", ⟨"", "", 1, 0, 0⟩)], some 1, [("A", true)],
          true, false, false, 0, 0, 0, none, none, [], 0, 0⟩ := by
    norm_num [analyzeState, stepA, stepCore, attributeInterval, applyBody,
      detectOpen, detectClose, ival, initAState, List.foldlM, firstFocusedCmd,
      focusedKeys, dget, dinsert, dmodify, ensure_entry, attribute_focus,
      processWindow, cutoffOf, Option.some_ne_none,
      show ("A" : String) ≠ "" from by decide]
  refine ⟨hreach, C7_activations _ 0 10 [] _ "A" hreach, ?_⟩
  norm_num [activationCount, snapMap, specFocusSet, dget, dinsert,
    show ("A" : String) ≠ "" from by decide]

/-! ### C4 -/

/-- Clamp of a time point into the query window. -/
def gclip (t1 t2 x : ℚ) : ℚ := min (max x t1) t2

theorem ival_eq_gclip (t1 t2 p q : ℚ) (ht12 : t1 ≤ t2) (hpq : p ≤ q) :
    ival t1 t2 p q = gclip t1 t2 q - gclip t1 t2 p := by
  unfold ival gclip
  split
  · rename_i hcase
    rcases hcase with hc | hc
    · have hq : max q t1 = t1 := max_eq_right (le_of_lt hc)
      have hp2 : max p t1 = t1 :=
        max_eq_right (le_of_lt (lt_of_le_of_lt hpq hc))
      rw [hq, hp2]
      ring
    · have h1 : min (max q t1) t2 = t2 :=
        min_eq_right (le_max_of_le_left (le_of_lt (lt_of_lt_of_le hc hpq)))
      have h2 : min (max p t1) t2 = t2 :=
        min_eq_right (le_max_of_le_left (le_of_lt hc))
      rw [h1, h2]
      ring
  · rename_i hcase
    push_neg at hcase
    obtain ⟨hqt1, hpt2⟩ := hcase
    have h1 : min (max q t1) t2 = min q t2 := by rw [max_eq_left hqt1]
    have h2 : min (max p t1) t2 = max p t1 := min_eq_left (max_le hpt2 ht12)
    rw [h1, h2]
    have hge : max p t1 ≤ min q t2 :=
      le_min (max_le hpq hqt1) (max_le hpt2 ht12)
    rw [max_eq_right (sub_nonneg.mpr hge)]

/-- The conserved quantity: all closed totals, all recorded focus
seconds, and the still-open episode's window overlap. -/
def budget (s : AState) : ℚ :=
  s.total_idle + s.total_locked + s.total_stopped + sumFocus s.stats +
    s.idle_overlap

/-- The open episode's overlap is zero when no episode is open. -/
def OverlapInv (s : AState) : Prop :=
  s.idle_start_ts = none → s.idle_overlap = 0

theorem sumFocus_backfill_title (stats : List (String × Entry))
    (k v : String) :
    sumFocus (match dget stats k with
      | some e => dinsert stats k { e with title := v }
      | none => stats) = sumFocus stats := by
  split
  · rename_i e0 hk
    rw [sumFocus_dinsert_upd _ _ _ _ hk]
    ring
  · rfl

theorem sumFocus_backfill_cmd (stats : List (String × Entry))
    (k v : String) :
    sumFocus (match dget stats k with
      | some e => dinsert stats k { e with cmd := v }
      | none => stats) = sumFocus stats := by
  split
  · rename_i e0 hk
    rw [sumFocus_dinsert_upd _ _ _ _ hk]
    ring
  · rfl

theorem sumFocus_processWindow
    (acc : List (String × Bool) × List (String × String) ×
      List (String × String) × List (String × Entry)) (w : WindowInfo) :
    sumFocus (processWindow acc w).2.2.2 = sumFocus acc.2.2.2 := by
  rcases acc with ⟨st, ht, hc, stats⟩
  dsimp only [processWindow]
  by_cases hw : w.hash = ""
  · rw [if_pos hw]
  · rw [if_neg hw]
    dsimp only
    by_cases h1 : w.title ≠ "" ∧ dget ht w.hash = none
    · rw [if_pos h1]
      dsimp only
      by_cases h2 : w.cmd ≠ "" ∧ dget hc w.hash = none
      · rw [if_pos h2]
        dsimp only
        rw [sumFocus_backfill_cmd, sumFocus_backfill_title]
      · rw [if_neg h2]
        exact sumFocus_backfill_title stats w.hash w.title
    · rw [if_neg h1]
      dsimp only
      by_cases h2 : w.cmd ≠ "" ∧ dget hc w.hash = none
      · rw [if_pos h2]
        dsimp only
        exact sumFocus_backfill_cmd stats w.hash w.cmd
      · rw [if_neg h2]

theorem sumFocus_applyBody (t1 t2 q : ℚ) (s : AState) (b : RecBody) :
    sumFocus (applyBody t1 t2 q s b).stats = sumFocus s.stats := by
  cases b with
  | restart => rfl
  | stopped => rfl
  | other => rfl
  | snapshot idleF lockedF ws =>
    dsimp only [applyBody]
    rcases hfold : ws.foldl processWindow
        ([], s.hash_to_title, s.hash_to_cmd, s.stats) with ⟨st, ht, hc, stats⟩
    dsimp only
    have hbase : sumFocus stats = sumFocus s.stats := by
      have hfix := foldl_fixed processWindow (fun acc => sumFocus acc.2.2.2)
        ws ([], s.hash_to_title, s.hash_to_cmd, s.stats)
        (fun a c _ => sumFocus_processWindow a c)
      rw [hfold] at hfix
      exact hfix
    by_cases hq : t1 ≤ q ∧ q ≤ t2
    · rw [if_pos hq]
      have hfix2 := foldl_fixed
        (fun acc hf =>
          dmodify (ensure_entry ht hc acc hf.1) hf.1
            (fun e => { e with activations := e.activations + 1 }))
        sumFocus
        (st.filter (fun hf => hf.2 && !((dget s.prev_windows hf.1).getD false)))
        stats
        (fun a c _ => by
          show sumFocus (dmodify (ensure_entry ht hc a c.1) c.1
            (fun e => { e with activations := e.activations + 1 })) = sumFocus a
          rw [sumFocus_dmodify]
          rcases hg : dget (ensure_entry ht hc a c.1) c.1 with _ | e <;>
            simp [sumFocus_ensure])
      exact hfix2.trans hbase
    · rw [if_neg hq]
      exact hbase

theorem attributeInterval_not_idle_overlap (t1 t2 q : ℚ) (s : AState)
    (hidle : s.idle = false) :
    (attributeInterval t1 t2 s q).idle_overlap = s.idle_overlap := by
  rcases hp : s.prev_ts with _ | p <;> simp only [attributeInterval, hp]
  repeat' split
  all_goals first
    | rfl
    | simp_all

theorem attributeInterval_episode_pair (t1 t2 q : ℚ) (s : AState) :
    ((attributeInterval t1 t2 s q).idle_start_ts = s.idle_start_ts ∧
     (attributeInterval t1 t2 s q).idle_overlap = s.idle_overlap)
    ∨ ((attributeInterval t1 t2 s q).idle_start_ts).isSome = true := by
  rcases hp : s.prev_ts with _ | p <;> simp only [attributeInterval, hp]
  · left; exact ⟨by trivial, by trivial⟩
  repeat' split
  all_goals first
    | (left; exact ⟨by trivial, by trivial⟩)
    | (right; simp_all [Option.isSome_iff_ne_none])

theorem overlapInv_attributeInterval (t1 t2 q : ℚ) (s : AState)
    (hO : OverlapInv s) : OverlapInv (attributeInterval t1 t2 s q) := by
  intro hnone
  rcases attributeInterval_episode_pair t1 t2 q s with ⟨h1, h2⟩ | hs
  · rw [h2]
    exact hO (h1 ▸ hnone)
  · rw [hnone] at hs
    cases hs

theorem overlapInv_detectClose (cut : List (String × ℚ)) (u : AState)
    (pI : Bool) (hO : OverlapInv u) : OverlapInv (detectClose cut u pI) := by
  unfold detectClose
  split
  · intro _
    rfl
  · exact hO

theorem overlapInv_stepCore (t1 t2 q : ℚ) (cut : List (String × ℚ))
    (s : AState) (b : RecBody) (hO : OverlapInv s) :
    OverlapInv (stepCore t1 t2 cut s q b) := by
  set s1 := attributeInterval t1 t2 s q with hs1
  set s2 := applyBody t1 t2 q s1 b with hs2
  set s3 := detectOpen s2 s.idle s.prev_windows q with hs3
  have hO1 : OverlapInv s1 := by
    rw [hs1]
    exact overlapInv_attributeInterval t1 t2 q s hO
  have hO2 : OverlapInv s2 := by
    intro hn
    rw [hs2, applyBody_idle_overlap]
    refine hO1 ?_
    rw [hs2, applyBody_idle_start_ts] at hn
    exact hn
  have hO3 : OverlapInv s3 := by
    rw [hs3]
    unfold detectOpen
    split
    · intro hn
      simp at hn
    · exact hO2
  have hfin : stepCore t1 t2 cut s q b =
      { detectClose cut s3 s.idle with prev_ts := some q } := by
    simp only [stepCore, hs1, hs2, hs3]
  rw [hfin]
  intro hnone
  exact overlapInv_detectClose cut s3 s.idle hO3 hnone

theorem sumFocus_idle_fold (ht hc : List (String × String))
    (st : List (String × Entry)) (hs : List String) (v : ℚ) :
    sumFocus (hs.foldl
      (fun acc h =>
        dmodify (ensure_entry ht hc acc h) h
          (fun e => { e with idle_seconds := e.idle_seconds + v })) st) =
      sumFocus st := by
  refine foldl_fixed _ sumFocus hs st (fun a c _ => ?_)
  show sumFocus (dmodify (ensure_entry ht hc a c) c
    (fun e => { e with idle_seconds := e.idle_seconds + v })) = sumFocus a
  rw [sumFocus_dmodify]
  rcases hg : dget (ensure_entry ht hc a c) c with _ | e <;>
    simp [sumFocus_ensure]

theorem budget_applyBody (t1 t2 q : ℚ) (s : AState) (b : RecBody) :
    budget (applyBody t1 t2 q s b) = budget s := by
  unfold budget
  rw [applyBody_total_idle, applyBody_total_locked, applyBody_total_stopped,
    applyBody_idle_overlap, sumFocus_applyBody]

theorem budget_detectOpen (s : AState) (pI : Bool)
    (pW : List (String × Bool)) (q : ℚ)
    (h : pI = false → s.idle_overlap = 0) :
    budget (detectOpen s pI pW q) = budget s := by
  unfold detectOpen
  split
  · rename_i hcond
    simp only [Bool.and_eq_true, Bool.not_eq_true'] at hcond
    have hov := h hcond.1.1.1
    unfold budget
    dsimp only
    rw [hov]
  · rfl

theorem budget_detectClose (cut : List (String × ℚ)) (u : AState)
    (pI : Bool) (hO : OverlapInv u)
    (hok : ∀ p0, u.idle_start_ts = some p0 →
      (u.idle_cmd.isSome && decide (u.idle_duration < cutoffOf cut u.idle_cmd)
        && u.extension_running && !u.locked && !u.idle) = true →
      u.idle_focused_hashes.length = 1) :
    budget (detectClose cut u pI) = budget u := by
  unfold detectClose
  split
  · dsimp only
    rcases hst : u.idle_start_ts with _ | p0
    · simp only [hst]
      have hov := hO hst
      unfold budget
      dsimp only
      rw [hov]
    · simp only [hst]
      by_cases htreat : (u.idle_cmd.isSome &&
          decide (u.idle_duration < cutoffOf cut u.idle_cmd) &&
          u.extension_running && !u.locked && !u.idle) = true
      · rw [if_pos htreat]
        unfold budget
        dsimp only
        rw [sumFocus_attribute_focus, hok p0 hst htreat]
        push_cast
        ring
      · rw [if_neg htreat]
        unfold budget
        dsimp only
        rw [sumFocus_idle_fold]
        ring
  · rfl

theorem budget_attributeInterval (t1 t2 q : ℚ) (s : AState)
    (hO : OverlapInv s)
    (hok1 : ∀ p, s.prev_ts = some p → s.extension_running = true →
      s.locked = false → s.idle = false → 0 < ival t1 t2 p q →
      (focusedKeys s.prev_windows).length = 1) :
    budget (attributeInterval t1 t2 s q) = budget s +
      (match s.prev_ts with
       | none => 0
       | some p => ival t1 t2 p q) := by
  rcases hp : s.prev_ts with _ | p
  · simp only [attributeInterval, hp]
    ring
  simp only [attributeInterval, hp]
  by_cases hrun : s.extension_running = false
  · rw [if_pos hrun]
    by_cases hiv : 0 < ival t1 t2 p q
    · rw [if_pos hiv]
      unfold budget
      dsimp only
      ring
    · rw [if_neg hiv]
      have h0 : ival t1 t2 p q = 0 :=
        le_antisymm (not_lt.mp hiv) (ival_nonneg t1 t2 p q)
      rw [h0]
      ring
  · rw [if_neg hrun]
    by_cases hlk : s.locked = true
    · rw [if_pos hlk]
      by_cases hiv : 0 < ival t1 t2 p q
      · rw [if_pos hiv]
        unfold budget
        dsimp only
        ring
      · rw [if_neg hiv]
        have h0 : ival t1 t2 p q = 0 :=
          le_antisymm (not_lt.mp hiv) (ival_nonneg t1 t2 p q)
        rw [h0]
        ring
    · rw [if_neg hlk]
      by_cases hidle : s.idle = true
      · rw [if_pos hidle]
        by_cases hst : s.idle_start_ts = none
        · rw [if_pos hst]
          have hov : s.idle_overlap = 0 := hO hst
          by_cases hiv : 0 < ival t1 t2 p q
          · rw [if_pos hiv]
            unfold budget
            dsimp only
            rw [hov]
            ring
          · rw [if_neg hiv]
            have h0 : ival t1 t2 p q = 0 :=
              le_antisymm (not_lt.mp hiv) (ival_nonneg t1 t2 p q)
            unfold budget
            dsimp only
            rw [hov, h0]
            ring
        · rw [if_neg hst]
          by_cases hiv : 0 < ival t1 t2 p q
          · rw [if_pos hiv]
            unfold budget
            dsimp only
            ring
          · rw [if_neg hiv]
            have h0 : ival t1 t2 p q = 0 :=
              le_antisymm (not_lt.mp hiv) (ival_nonneg t1 t2 p q)
            unfold budget
            dsimp only
            rw [h0]
            ring
      · rw [if_neg hidle]
        by_cases hiv : 0 < ival t1 t2 p q
        · rw [if_pos hiv]
          unfold budget
          dsimp only
          rw [sumFocus_attribute_focus]
          have hrun' : s.extension_running = true := by
            cases hb : s.extension_running
            · exact absurd hb hrun
            · rfl
          have hlk' : s.locked = false := by
            cases hb : s.locked
            · rfl
            · exact absurd hb hlk
          have hidle' : s.idle = false := by
            cases hb : s.idle
            · rfl
            · exact absurd hb hidle
          rw [hok1 p hp hrun' hlk' hidle' hiv]
          push_cast
          ring
        · rw [if_neg hiv]
          have h0 : ival t1 t2 p q = 0 :=
            le_antisymm (not_lt.mp hiv) (ival_nonneg t1 t2 p q)
          rw [h0]
          ring

theorem budget_stepCore (t1 t2 q : ℚ) (cut : List (String × ℚ))
    (s : AState) (b : RecBody)
    (hE : EpisodeInv s) (hO : OverlapInv s)
    (hok1 : ∀ p, s.prev_ts = some p → s.extension_running = true →
      s.locked = false → s.idle = false → 0 < ival t1 t2 p q →
      (focusedKeys s.prev_windows).length = 1)
    (hok2 : ∀ p0,
      (detectOpen (applyBody t1 t2 q (attributeInterval t1 t2 s q) b)
        s.idle s.prev_windows q).idle_start_ts = some p0 →
      ((detectOpen (applyBody t1 t2 q (attributeInterval t1 t2 s q) b)
          s.idle s.prev_windows q).idle_cmd.isSome &&
        decide ((detectOpen (applyBody t1 t2 q (attributeInterval t1 t2 s q) b)
            s.idle s.prev_windows q).idle_duration <
          cutoffOf cut (detectOpen (applyBody t1 t2 q (attributeInterval t1 t2 s q) b)
            s.idle s.prev_windows q).idle_cmd) &&
        (detectOpen (applyBody t1 t2 q (attributeInterval t1 t2 s q) b)
          s.idle s.prev_windows q).extension_running &&
        !(detectOpen (applyBody t1 t2 q (attributeInterval t1 t2 s q) b)
          s.idle s.prev_windows q).locked &&
        !(detectOpen (applyBody t1 t2 q (attributeInterval t1 t2 s q) b)
          s.idle s.prev_windows q).idle) = true →
      (detectOpen (applyBody t1 t2 q (attributeInterval t1 t2 s q) b)
        s.idle s.prev_windows q).idle_focused_hashes.length = 1) :
    budget (stepCore t1 t2 cut s q b) = budget s +
      (match s.prev_ts with
       | none => 0
       | some p => ival t1 t2 p q) := by
  set s1 := attributeInterval t1 t2 s q with hs1
  set s2 := applyBody t1 t2 q s1 b with hs2
  set s3 := detectOpen s2 s.idle s.prev_windows q with hs3
  have hfin : stepCore t1 t2 cut s q b =
      { detectClose cut s3 s.idle with prev_ts := some q } := by
    simp only [stepCore, hs1, hs2, hs3]
  have hb1 : budget s1 = budget s +
      (match s.prev_ts with
       | none => 0
       | some p => ival t1 t2 p q) := by
    rw [hs1]
    exact budget_attributeInterval t1 t2 q s hO hok1
  have hb2 : budget s2 = budget s1 := by
    rw [hs2]
    exact budget_applyBody t1 t2 q s1 b
  have hov2 : s.idle = false → s2.idle_overlap = 0 := by
    intro hidle
    have hstart : s.idle_start_ts = none := by
      rcases hstt : s.idle_start_ts with _ | st
      · rfl
      · have hEp := hE (by rw [hstt]; rfl)
        rw [hidle] at hEp
        exact absurd hEp.2.1 (by simp)
    rw [hs2, applyBody_idle_overlap, hs1,
      attributeInterval_not_idle_overlap t1 t2 q s hidle]
    exact hO hstart
  have hb3 : budget s3 = budget s2 := by
    rw [hs3]
    exact budget_detectOpen s2 s.idle s.prev_windows q hov2
  have hO1 : OverlapInv s1 := by
    rw [hs1]
    exact overlapInv_attributeInterval t1 t2 q s hO
  have hO2 : OverlapInv s2 := by
    intro hn
    rw [hs2, applyBody_idle_overlap]
    refine hO1 ?_
    rw [hs2, applyBody_idle_start_ts] at hn
    exact hn
  have hO3 : OverlapInv s3 := by
    rw [hs3]
    unfold detectOpen
    split
    · intro hn
      simp at hn
    · exact hO2
  have hb4 : budget (detectClose cut s3 s.idle) = budget s3 :=
    budget_detectClose cut s3 s.idle hO3 hok2
  have hfinal : budget (stepCore t1 t2 cut s q b) =
      budget (detectClose cut s3 s.idle) := by
    rw [hfin]
    unfold budget
    rfl
  rw [hfinal, hb4, hb3, hb2, hb1]

def check1 (t1 t2 q : ℚ) (s : AState) : Bool :=
  match s.prev_ts with
  | none => true
  | some p =>
    !(s.extension_running && !s.locked && !s.idle &&
        decide (0 < ival t1 t2 p q)) ||
      decide ((focusedKeys s.prev_windows).length = 1)

def check2core (cut : List (String × ℚ)) (u : AState) : Bool :=
  match u.idle_start_ts with
  | none => true
  | some _ =>
    !(u.idle_cmd.isSome && decide (u.idle_duration < cutoffOf cut u.idle_cmd)
        && u.extension_running && !u.locked && !u.idle) ||
      decide (u.idle_focused_hashes.length = 1)

def check2 (t1 t2 q : ℚ) (cut : List (String × ℚ)) (s : AState)
    (b : RecBody) : Bool :=
  check2core cut
    (detectOpen (applyBody t1 t2 q (attributeInterval t1 t2 s q) b)
      s.idle s.prev_windows q)

/-- `stepA` instrumented with a Boolean that verifies, at every step, the
side conditions under which the step conserves the time budget: a
single focused entity whenever a positive interval is attributed to
focus, and a single recorded focused hash whenever a closing episode is
reclassified into focus seconds. -/
def stepChecked (t1 t2 : ℚ) (cut : List (String × ℚ))
    (p : AState × Bool) (r : Rec) : Option (AState × Bool) :=
  match r.ts with
  | .absent => some p
  | .bad => none
  | .num q =>
    some (stepCore t1 t2 cut p.1 q r.body,
      p.2 && check1 t1 t2 q p.1 && check2 t1 t2 q cut p.1 r.body)

def analyzeChecked (es : List Rec) (t1 t2 : ℚ)
    (cut : List (String × ℚ)) : Option (AState × Bool) :=
  es.foldlM (stepChecked t1 t2 cut) (initAState, true)

/-- The list of timestamps that actually drive the loop: the `ts`
values `float()` parses, in log order. -/
def tsList (es : List Rec) : List ℚ :=
  es.filterMap (fun r =>
    match r.ts with
    | .num q => some q
    | _ => none)

theorem check1_spec (t1 t2 q : ℚ) (s : AState)
    (h : check1 t1 t2 q s = true) :
    ∀ p, s.prev_ts = some p → s.extension_running = true →
      s.locked = false → s.idle = false → 0 < ival t1 t2 p q →
      (focusedKeys s.prev_windows).length = 1 := by
  intro p hp hrun hlk hidle hiv
  unfold check1 at h
  rw [hp] at h
  simp [hrun, hlk, hidle, hiv] at h
  exact h

theorem check2core_spec (cut : List (String × ℚ)) (u : AState)
    (h : check2core cut u = true) :
    ∀ p0, u.idle_start_ts = some p0 →
      (u.idle_cmd.isSome && decide (u.idle_duration < cutoffOf cut u.idle_cmd)
        && u.extension_running && !u.locked && !u.idle) = true →
      u.idle_focused_hashes.length = 1 := by
  intro p0 hstart htreat
  unfold check2core at h
  rw [hstart] at h
  simp [htreat] at h
  exact h

theorem foldChecked_false (t1 t2 : ℚ) (cut : List (String × ℚ)) :
    ∀ (es : List Rec) (s : AState) (out : AState × Bool),
    es.foldlM (stepChecked t1 t2 cut) (s, false) = some out →
    out.2 = false := by
  intro es
  induction es with
  | nil =>
    intro s out h
    simp [List.foldlM] at h
    rw [← h]
  | cons r es ih =>
    intro s out h
    rw [foldlM_cons_opt] at h
    rcases hts : r.ts with _ | q | _
    · rw [show stepChecked t1 t2 cut (s, false) r = some (s, false) from by
        simp [stepChecked, hts]] at h
      exact ih s out h
    · rw [show stepChecked t1 t2 cut (s, false) r =
          some (stepCore t1 t2 cut s q r.body, false) from by
        simp [stepChecked, hts]] at h
      exact ih _ out h
    · rw [show stepChecked t1 t2 cut (s, false) r = none from by
        simp [stepChecked, hts]] at h
      exact Option.noConfusion h

theorem foldChecked_fst (t1 t2 : ℚ) (cut : List (String × ℚ)) :
    ∀ (es : List Rec) (s : AState) (ok : Bool),
    (es.foldlM (stepChecked t1 t2 cut) (s, ok)).map Prod.fst =
      es.foldlM (stepA t1 t2 cut) s := by
  intro es
  induction es with
  | nil =>
    intro s ok
    rfl
  | cons r es ih =>
    intro s ok
    rw [foldlM_cons_opt, foldlM_cons_opt]
    rcases hts : r.ts with _ | q | _
    · rw [show stepChecked t1 t2 cut (s, ok) r = some (s, ok) from by
        simp [stepChecked, hts],
        show stepA t1 t2 cut s r = some s from by simp [stepA, hts]]
      exact ih s ok
    · rw [show stepChecked t1 t2 cut (s, ok) r =
          some (stepCore t1 t2 cut s q r.body,
            ok && check1 t1 t2 q s && check2 t1 t2 q cut s r.body) from by
        simp [stepChecked, hts],
        show stepA t1 t2 cut s r = some (stepCore t1 t2 cut s q r.body) from by
        simp [stepA, hts]]
      exact ih _ _
    · rw [show stepChecked t1 t2 cut (s, ok) r = none from by
        simp [stepChecked, hts],
        show stepA t1 t2 cut s r = none from by simp [stepA, hts]]
      rfl

theorem analyzeChecked_fst (es : List Rec) (t1 t2 : ℚ)
    (cut : List (String × ℚ)) :
    (analyzeChecked es t1 t2 cut).map Prod.fst = analyzeState es t1 t2 cut :=
  foldChecked_fst t1 t2 cut es initAState true

theorem budget_fold_some (t1 t2 : ℚ) (cut : List (String × ℚ))
    (ht12 : t1 ≤ t2) :
    ∀ (es : List Rec) (s : AState) (ok : Bool) (out : AState × Bool) (p : ℚ),
    s.prev_ts = some p → EpisodeInv s → OverlapInv s →
    List.Chain' (fun a b => a ≤ b) (p :: tsList es) →
    es.foldlM (stepChecked t1 t2 cut) (s, ok) = some out →
    out.2 = true →
    ∃ p', out.1.prev_ts = some p' ∧ p ≤ p' ∧
      budget out.1 = budget s + (gclip t1 t2 p' - gclip t1 t2 p) ∧
      OverlapInv out.1 := by
  intro es
  induction es with
  | nil =>
    intro s ok out p hp hE hO hch h htrue
    simp [List.foldlM] at h
    refine ⟨p, ?_, le_refl p, ?_, ?_⟩
    · rw [← h]
      exact hp
    · rw [← h]
      ring
    · rw [← h]
      exact hO
  | cons r es ih =>
    intro s ok out p hp hE hO hch h htrue
    rw [foldlM_cons_opt] at h
    rcases hts : r.ts with _ | q | _
    · rw [show stepChecked t1 t2 cut (s, ok) r = some (s, ok) from by
        simp [stepChecked, hts]] at h
      have htl : tsList (r :: es) = tsList es := by
        simp [tsList, List.filterMap_cons, hts]
      rw [htl] at hch
      exact ih s ok out p hp hE hO hch h htrue
    · rw [show stepChecked t1 t2 cut (s, ok) r =
          some (stepCore t1 t2 cut s q r.body,
            ok && check1 t1 t2 q s && check2 t1 t2 q cut s r.body) from by
        simp [stepChecked, hts]] at h
      have htl : tsList (r :: es) = q :: tsList es := by
        simp [tsList, List.filterMap_cons, hts]
      rw [htl, List.chain'_cons] at hch
      obtain ⟨hpq, hch2⟩ := hch
      cases hB : (ok && check1 t1 t2 q s && check2 t1 t2 q cut s r.body) with
      | false =>
        rw [hB] at h
        have hf := foldChecked_false t1 t2 cut es _ out h
        rw [htrue] at hf
        exact Bool.noConfusion hf
      | true =>
        rw [hB] at h
        have hc12 := hB
        simp only [Bool.and_eq_true] at hc12
        have hc2' : check2core cut (detectOpen (applyBody t1 t2 q
            (attributeInterval t1 t2 s q) r.body) s.idle s.prev_windows q) =
            true := hc12.2
        have hbs : budget (stepCore t1 t2 cut s q r.body) =
            budget s + ival t1 t2 p q := by
          have hstep := budget_stepCore t1 t2 q cut s r.body hE hO
            (check1_spec t1 t2 q s hc12.1.2)
            (check2core_spec cut _ hc2')
          rw [hp] at hstep
          exact hstep
        obtain ⟨p', hp', hqp', hb', hO'⟩ := ih (stepCore t1 t2 cut s q r.body)
          true out q (stepCore_prev_ts t1 t2 q cut s r.body)
          (episodeInv_stepCore t1 t2 q cut s r.body hE)
          (overlapInv_stepCore t1 t2 q cut s r.body hO) hch2 h htrue
        refine ⟨p', hp', le_trans hpq hqp', ?_, hO'⟩
        rw [hb', hbs, ival_eq_gclip t1 t2 p q ht12 hpq]
        ring
    · rw [show stepChecked t1 t2 cut (s, ok) r = none from by
        simp [stepChecked, hts]] at h
      exact Option.noConfusion h

theorem budget_fold_none (t1 t2 : ℚ) (cut : List (String × ℚ))
    (ht12 : t1 ≤ t2) :
    ∀ (es : List Rec) (s : AState) (ok : Bool) (out : AState × Bool),
    s.prev_ts = none → EpisodeInv s → OverlapInv s →
    List.Chain' (fun a b => a ≤ b) (tsList es) →
    es.foldlM (stepChecked t1 t2 cut) (s, ok) = some out →
    out.2 = true →
    ∀ q0 qs, tsList es = q0 :: qs →
    ∃ p', out.1.prev_ts = some p' ∧ q0 ≤ p' ∧
      budget out.1 = budget s + (gclip t1 t2 p' - gclip t1 t2 q0) ∧
      OverlapInv out.1 := by
  intro es
  induction es with
  | nil =>
    intro s ok out hp hE hO hch h htrue q0 qs hts0
    simp [tsList] at hts0
  | cons r es ih =>
    intro s ok out hp hE hO hch h htrue q0 qs hts0
    rw [foldlM_cons_opt] at h
    rcases hts : r.ts with _ | q | _
    · rw [show stepChecked t1 t2 cut (s, ok) r = some (s, ok) from by
        simp [stepChecked, hts]] at h
      have htl : tsList (r :: es) = tsList es := by
        simp [tsList, List.filterMap_cons, hts]
      rw [htl] at hch hts0
      exact ih s ok out hp hE hO hch h htrue q0 qs hts0
    · rw [show stepChecked t1 t2 cut (s, ok) r =
          some (stepCore t1 t2 cut s q r.body,
            ok && check1 t1 t2 q s && check2 t1 t2 q cut s r.body) from by
        simp [stepChecked, hts]] at h
      have htl : tsList (r :: es) = q :: tsList es := by
        simp [tsList, List.filterMap_cons, hts]
      rw [htl] at hch hts0
      injection hts0 with hq0 hqs
      subst hq0
      cases hB : (ok && check1 t1 t2 q s && check2 t1 t2 q cut s r.body) with
      | false =>
        rw [hB] at h
        have hf := foldChecked_false t1 t2 cut es _ out h
        rw [htrue] at hf
        exact Bool.noConfusion hf
      | true =>
        rw [hB] at h
        have hc12 := hB
        simp only [Bool.and_eq_true] at hc12
        have hc2' : check2core cut (detectOpen (applyBody t1 t2 q
            (attributeInterval t1 t2 s q) r.body) s.idle s.prev_windows q) =
            true := hc12.2
        have hbs : budget (stepCore t1 t2 cut s q r.body) = budget s := by
          have hstep := budget_stepCore t1 t2 q cut s r.body hE hO
            (check1_spec t1 t2 q s hc12.1.2)
            (check2core_spec cut _ hc2')
          rw [hp] at hstep
          simpa using hstep
        obtain ⟨p', hp', hqp', hb', hO'⟩ := budget_fold_some t1 t2 cut ht12 es
          (stepCore t1 t2 cut s q r.body) true out q
          (stepCore_prev_ts t1 t2 q cut s r.body)
          (episodeInv_stepCore t1 t2 q cut s r.body hE)
          (overlapInv_stepCore t1 t2 q cut s r.body hO) hch h htrue
        refine ⟨p', hp', hqp', ?_, hO'⟩
        rw [hb', hbs]
    · rw [show stepChecked t1 t2 cut (s, ok) r = none from by
        simp [stepChecked, hts]] at h
      exact Option.noConfusion h

/-- C4 (amended): the conservation identity holds only under side
conditions the original claim omits.  If the parsed timestamps are
non-decreasing, the query window [t1, t2] lies inside the logged span
(first parsed timestamp ≤ t1 and t2 ≤ last), exactly one entity is
focused whenever a positive interval is attributed to focus and exactly
one focused hash was recorded whenever a closing idle episode is
reclassified (both verified by the instrumented fold `analyzeChecked`
returning `true`), and no idle episode is still open after the last
record, then the output of `analyze` satisfies
Totals.idle + Totals.locked + Totals.stopped + Σ focusSeconds = t2 - t1.
Without the single-focus conditions the attributed interval is
multiplied by the number of focused entities (possibly zero), and the
identity fails — see `C4_counterexample`. -/
theorem C4_conservation (es : List Rec) (t1 t2 : ℚ)
    (cut : List (String × ℚ)) (s : AState) (q0 pl : ℚ) (qs : List ℚ)
    (ht12 : t1 ≤ t2)
    (hsorted : List.Chain' (fun a b => a ≤ b) (tsList es))
    (hrun : analyzeChecked es t1 t2 cut = some (s, true))
    (hts0 : tsList es = q0 :: qs) (hq0 : q0 ≤ t1)
    (hlast : s.prev_ts = some pl) (hpl : t2 ≤ pl)
    (hnoopen : s.idle_start_ts = none) :
    analyze es t1 t2 cut = some (mkOutput s) ∧
    (mkOutput s).total_idle + (mkOutput s).total_locked +
      (mkOutput s).total_stopped + sumFocus (mkOutput s).stats = t2 - t1 := by
  have hstate : analyzeState es t1 t2 cut = some s := by
    rw [← analyzeChecked_fst, hrun]
    rfl
  refine ⟨?_, ?_⟩
  · unfold analyze
    rw [hstate]
    rfl
  obtain ⟨p', hp', hqp', hb', hO'⟩ := budget_fold_none t1 t2 cut ht12 es
    initAState true (s, true) rfl
    (fun hcontra => by simp [initAState] at hcontra)
    (fun _ => rfl) hsorted hrun rfl q0 qs hts0
  have hp'' : s.prev_ts = some p' := hp'
  rw [hlast] at hp''
  have he : pl = p' := Option.some.inj hp''
  subst he
  have hgq0 : gclip t1 t2 q0 = t1 := by
    unfold gclip
    rw [max_eq_right hq0, min_eq_left ht12]
  have hgpl : gclip t1 t2 pl = t2 := by
    unfold gclip
    rw [max_eq_left (le_trans ht12 hpl), min_eq_right hpl]
  have hbinit : budget initAState = 0 := by
    norm_num [budget, initAState, sumFocus]
  have hov : s.idle_overlap = 0 := hO' hnoopen
  have hb2 : budget s = budget initAState +
      (gclip t1 t2 pl - gclip t1 t2 q0) := hb'
  rw [hbinit, hgq0, hgpl] at hb2
  unfold budget at hb2
  show s.total_idle + s.total_locked + s.total_stopped + sumFocus s.stats =
    t2 - t1
  linarith

/-- C4 counterexample: two sorted events, a restart at 0 and a stop at
10, with the window [0, 10] exactly the logged span.  No entity is ever
focused, so the ten seconds between the events are attributed to
nobody: all three totals and every focusSeconds stay 0, and the claimed
identity 0 = 10 - 0 fails. -/
theorem C4_counterexample :
    (analyze [⟨.num 0, .restart⟩, ⟨.num 10, .stopped⟩] 0 10 []).map
        (fun o => o.total_idle + o.total_locked + o.total_stopped +
          sumFocus o.stats) = some 0
    ∧ tsList [⟨.num 0, .restart⟩, ⟨.num 10, .stopped⟩] = [0, 10]
    ∧ ((0:ℚ) ≤ 10 ∧ (0:ℚ) ≤ 0 ∧ (10:ℚ) ≤ 10)
    ∧ (0:ℚ) ≠ 10 - 0 := by
  refine ⟨?_, by norm_num [tsList, List.filterMap_cons], by norm_num,
    by norm_num⟩
  norm_num [analyze, analyzeState, stepA, stepCore, attributeInterval,
    applyBody, detectOpen, detectClose, ival, initAState, List.foldlM,
    firstFocusedCmd, focusedKeys, dget, dinsert, dmodify, ensure_entry,
    attribute_focus, processWindow, cutoffOf, mkOutput, sumFocus,
    Option.some_ne_none]

/-- A two-snapshot log (the single entity "A" focused at 0 and at 3)
used to witness the amended conservation theorem on the window [1, 2]. -/
def esC4 : List Rec :=
  [⟨.num 0, .snapshot (some false) (some false)
      [⟨"A", true, "TitleA", "cmdA"⟩]⟩,
   ⟨.num 3, .snapshot (some false) (some false)
      [⟨"A", true, "TitleA", "cmdA"⟩]⟩]

/-- The state `analyze` reaches on `esC4` with window [1, 2]. -/
def eC4 : Entry :=
  { title := "TitleA", cmd := "cmdA", activations := 0,
    focus_seconds := 1, idle_seconds := 0 }

def sC4 : AState :=
  { hash_to_title := [("A", "TitleA")], hash_to_cmd := [("A", "cmdA")],
    stats := [("A", eC4)],
    prev_ts := some 3, prev_windows := [("A", true)],
    extension_running := true, idle := false, locked := false,
    total_idle := 0, total_locked := 0, total_stopped := 0,
    idle_start_ts := none, idle_cmd := none, idle_focused_hashes := [],
    idle_overlap := 0, idle_duration := 0 }

set_option maxHeartbeats 2000000 in
/-- C4 witness: the amended conservation theorem applied to `esC4` on
the window [1, 2]: the checked fold accepts the log, and the one second
of the window is fully booked to the focused entity "A". -/
theorem C4_witness :
    analyzeChecked esC4 1 2 [] = some (sC4, true) ∧
    analyze esC4 1 2 [] = some (mkOutput sC4) ∧
    (mkOutput sC4).total_idle + (mkOutput sC4).total_locked +
      (mkOutput sC4).total_stopped + sumFocus (mkOutput sC4).stats =
      2 - 1 := by
  have hrun : analyzeChecked esC4 1 2 [] = some (sC4, true) := by
    norm_num [esC4, sC4, eC4, analyzeChecked, stepChecked, check1, check2,
      check2core, stepCore, attributeInterval, applyBody, detectOpen,
      detectClose, initAState, List.foldlM, ival, processWindow, dget,
      dinsert, dmodify, ensure_entry, attribute_focus, focusedKeys,
      firstFocusedCmd, cutoffOf, Option.some_ne_none, Option.isSome_some,
      show ("A" : String) ≠ "" from by decide,
      show ("TitleA" : String) ≠ "" from by decide,
      show ("cmdA" : String) ≠ "" from by decide]
  have hmain := C4_conservation esC4 1 2 [] sC4 0 3 [3] (by norm_num)
    (by norm_num [tsList, esC4, List.filterMap_cons, List.chain'_cons])
    hrun (by norm_num [tsList, esC4, List.filterMap_cons]) (by norm_num)
    (by norm_num [sC4]) (by norm_num) (by norm_num [sC4])
  exact ⟨hrun, hmain.1, hmain.2⟩
